import Mathlib

/-!
Shallow embedding of the `confucius` configuration library (Rust) and proofs
about the claims of its specification.

Conventions used throughout:
* Rust `&str` / `String` are Lean `String`; character-level scanners work on
  `List Char` (the `.data` of a string), mirroring Rust's `chars()` loops.
* File contents are modelled as the list of their lines (`List String`):
  every consumer in the source immediately applies `str::lines`, and the
  writers emit whole lines (`writeln!`).
* Rust `i64` is `Int` together with explicit range checks where the source
  checks them (`str::parse::<i64>` overflow).
* Rust `f64` is modelled by `F64`: finite values as exact rationals plus the
  special values; IEEE rounding is outside the scope of every claim treated
  here, and no theorem below depends on a float payload.
* Rust `HashMap` is modelled as an association list with insert-or-replace
  semantics (`AListC.insert`); the source's hash-map iteration order is
  unspecified (spec §9), the list order is this model's concrete choice.
* Fallible Rust functions returning `Result` become `Except`.
-/

set_option autoImplicit false

namespace Confucius

/-- Rust `ConfigFormat` from `src/lib.rs`: the supported configuration formats. -/
inductive ConfigFormat where
  | ini
  | toml
  | yaml
  | json
  | unknown
deriving DecidableEq

/-- Model of Rust `f64` values: finite values as exact rationals, plus the
IEEE special values. No claim below depends on rounding behaviour. -/
inductive F64 where
  | finite (q : Rat)
  | inf
  | neginf
  | nan
deriving DecidableEq

/-- IEEE `<` on the model: `nan` compares false with everything. -/
def F64.blt : F64 → F64 → Bool
  | .nan, _ => false
  | _, .nan => false
  | .finite a, .finite b => a < b
  | .finite _, .inf => true
  | .finite _, .neginf => false
  | .inf, _ => false
  | .neginf, .neginf => false
  | .neginf, _ => true

/-- IEEE `>` on the model. -/
def F64.bgt (a b : F64) : Bool := F64.blt b a

/-- Rust `ConfigValue` from `src/lib.rs`: the canonical tagged-union value model.
`Table` is an association list standing for the Rust `HashMap`. -/
inductive ConfigValue where
  | str (s : String)
  | int (i : Int)
  | float (f : F64)
  | bool (b : Bool)
  | arr (items : List ConfigValue)
  | table (entries : List (String × ConfigValue))

namespace ConfigValue

/-- Rust `ConfigValue::as_string`. -/
def as_string : ConfigValue → Option String
  | .str s => some s
  | _ => none

/-- Rust `ConfigValue::as_integer`. -/
def as_integer : ConfigValue → Option Int
  | .int i => some i
  | _ => none

/-- Rust `ConfigValue::as_float`: floats pass through and integers are widened,
exactly as in the source. -/
def as_float : ConfigValue → Option F64
  | .float f => some f
  | .int i => some (.finite (i : Rat))
  | _ => none

/-- Rust `ConfigValue::as_boolean`. -/
def as_boolean : ConfigValue → Option Bool
  | .bool b => some b
  | _ => none

end ConfigValue

/-- Rust `ConfigError` from `src/lib.rs` (payload strings kept where the source
formats a message; I/O errors carry no payload in the model). -/
inductive ConfigError where
  | io
  | unsupportedFormat (s : String)
  | parseError (s : String)
  | configNotFound (s : String)
  | includeError (s : String)
  | generic (s : String)
deriving DecidableEq

/-! Part: Association-list model of `HashMap` -/

namespace AListC

/-- Lookup by key (model of `HashMap::get`). -/
def get {α : Type} (m : List (String × α)) (k : String) : Option α :=
  match m with
  | [] => none
  | (k', v) :: rest => if k' = k then some v else get rest k

/-- Insert-or-replace (model of `HashMap::insert`): replaces the value in
place when the key is present, appends otherwise. -/
def insert {α : Type} (m : List (String × α)) (k : String) (v : α) :
    List (String × α) :=
  match m with
  | [] => [(k, v)]
  | (k', v') :: rest =>
    if k' = k then (k', v) :: rest else (k', v') :: insert rest k v

/-- Model of `HashMap::contains_key`. -/
def containsKey {α : Type} (m : List (String × α)) (k : String) : Bool :=
  (get m k).isSome

end AListC

/-- Rust `Config` from `src/lib.rs`, restricted to the fields the claims touch:
the two-level value store and the current format tag. -/
structure Config where
  values : List (String × List (String × ConfigValue))
  format : ConfigFormat

namespace Config

/-- Rust `Config::new` (the application name plays no role in any claim). -/
def new : Config := { values := [], format := .unknown }

/-- Rust `Config::get`. -/
def get (c : Config) (section_ key : String) : Option ConfigValue :=
  match AListC.get c.values section_ with
  | none => none
  | some m => AListC.get m key

/-- Rust `Config::set`: upsert into the section map, creating the section when
absent. -/
def set (c : Config) (section_ key : String) (v : ConfigValue) : Config :=
  match AListC.get c.values section_ with
  | none => { c with values := AListC.insert c.values section_ [(key, v)] }
  | some m => { c with values := AListC.insert c.values section_ (AListC.insert m key v) }

/-- Rust `Config::get_string`: wrong-typed present values yield `none`, the
default is only used when the key is absent. -/
def get_string (c : Config) (section_ key : String) (default : Option String) :
    Option String :=
  match c.get section_ key with
  | some v => v.as_string
  | none => default

/-- Rust `Config::get_integer`: `as_integer().or(default)` on present values. -/
def get_integer (c : Config) (section_ key : String) (default : Option Int) :
    Option Int :=
  match c.get section_ key with
  | some v => v.as_integer.orElse fun _ => default
  | none => default

/-- Rust `Config::get_float`: `as_float().or(default)` on present values. -/
def get_float (c : Config) (section_ key : String) (default : Option F64) :
    Option F64 :=
  match c.get section_ key with
  | some v => v.as_float.orElse fun _ => default
  | none => default

/-- Rust `Config::get_boolean`: `as_boolean().or(default)` on present values. -/
def get_boolean (c : Config) (section_ key : String) (default : Option Bool) :
    Option Bool :=
  match c.get section_ key with
  | some v => v.as_boolean.orElse fun _ => default
  | none => default

end Config

/-! Part: Character-level utilities (`src/utils.rs`) -/

/-- Drop leading whitespace (Rust `trim_start` / regex `\s*`). -/
def ltrimL (cs : List Char) : List Char := cs.dropWhile Char.isWhitespace

/-- Drop trailing whitespace (Rust `trim_end`). -/
def rtrimL (cs : List Char) : List Char := (cs.reverse.dropWhile Char.isWhitespace).reverse

/-- Drop whitespace on both sides (Rust `trim`). -/
def trimL (cs : List Char) : List Char := rtrimL (ltrimL cs)

/-- Model of Rust `str::to_lowercase`, ASCII-faithful (every string the
claims classify is ASCII). Core `String.toLower` is avoided because its
position-based recursion does not reduce in the kernel. -/
def toLowercase (s : String) : String := String.mk (s.data.map Char.toLower)

/-- Model of Rust `str::starts_with("#!config/")`, used by every format
detector and by the shebang-skipping parsers. -/
def hasShebang (s : String) : Bool := "#!config/".data.isPrefixOf s.data

/-- Rust `utils::is_quoted`: starts and ends with a double quote (true also for
the one-character string `"`, as in Rust). -/
def is_quoted (s : String) : Bool :=
  match s.data with
  | [] => false
  | c :: rest => c = '"' && ((c :: rest).getLast? = some '"')

/-- The escape loop of `utils::unquote`: a backslash directly followed by a
double quote emits the quote; every other character passes through. -/
def unquoteLoop : List Char → List Char
  | [] => []
  | '\\' :: '"' :: rest => '"' :: unquoteLoop rest
  | c :: rest => c :: unquoteLoop rest

/-- Rust `utils::unquote`: strip the surrounding quotes and process `\"` escapes.
The source slices `s[1..len-1]`, which panics on the one-character string `"`
(`is_quoted` accepts it, yet the slice end `len - 1 = 0` lies before its
start); `unquoteChecked` below is the slice-faithful variant with that panic
as `none`, `unquote_totalizes` shows the two agree wherever the source
returns, and this total variant stands in for the source only on those
inputs. -/
def unquote (s : String) : String :=
  if is_quoted s then String.mk (unquoteLoop ((s.data.drop 1).dropLast))
  else s

/-- Rust `utils::unquote`, slice-faithful: the range `1..s.len()-1` is valid
only when the string has at least two bytes, so on the one-character string
`"` (quoted according to `is_quoted`) the source panics — `none` here. -/
def unquoteChecked (s : String) : Option String :=
  if is_quoted s then
    if 2 ≤ s.data.length then
      some (String.mk (unquoteLoop ((s.data.drop 1).dropLast)))
    else none
  else some s

/-- The scanning loop of `utils::strip_comments`: every double quote toggles
the quote flag (no escape handling), an unquoted `#` ends the scan. -/
def stripLoop : List Char → Bool → List Char
  | [], _ => []
  | c :: rest, inQ =>
    if c = '"' then c :: stripLoop rest (!inQ)
    else if c = '#' ∧ inQ = false then []
    else c :: stripLoop rest inQ

/-- Rust `utils::strip_comments`: cut at the first unquoted `#`, then trim
trailing whitespace. -/
def strip_comments (line : String) : String :=
  String.mk (rtrimL (stripLoop line.data false))

/-- Rust `utils::resolve_path`, with `Path` as `String`: absolute paths pass
through, relative ones are joined to the base file's parent directory; the
result is normalised (model of `path_clean::clean`, resolving `.` and `..`
components). -/
def parentDir (p : String) : String :=
  let cs := p.data
  if cs.contains '/' then
    String.mk ((cs.reverse.dropWhile (· ≠ '/')).drop 1).reverse
  else "."

/-- Component-wise path normalisation (model of `path_clean::clean`). -/
def cleanComponents (acc : List String) : List String → List String
  | [] => acc.reverse
  | c :: rest =>
    if c = "" ∨ c = "." then cleanComponents acc rest
    else if c = ".." then
      match acc with
      | [] => cleanComponents [".."] rest
      | ".." :: _ => cleanComponents (".." :: acc) rest
      | _ :: accRest => cleanComponents accRest rest
    else cleanComponents (c :: acc) rest

/-- Join path components with slashes. -/
def joinComponents (isAbs : Bool) (comps : List String) : String :=
  let body := String.intercalate "/" comps
  if isAbs then "/" ++ body
  else if comps = [] then "." else body

/-- Rust `utils::resolve_path` followed by `path_clean::clean`. -/
def splitSlash : List Char → List (List Char)
  | [] => [[]]
  | '/' :: rest => [] :: splitSlash rest
  | c :: rest =>
    match splitSlash rest with
    | h :: t => (c :: h) :: t
    | [] => [[c]]

/-- Rust `utils::resolve_path` followed by `path_clean::clean` (absolute
check, join to the base directory, normalise components). -/
def resolve_path (base_file relative_path : String) : String :=
  let isAbsRel : Bool :=
    match relative_path.data with
    | '/' :: _ => true
    | _ => false
  let joined :=
    if isAbsRel then relative_path
    else parentDir base_file ++ "/" ++ relative_path
  let isAbs : Bool :=
    match joined.data with
    | '/' :: _ => true
    | _ => false
  joinComponents isAbs (cleanComponents [] ((splitSlash joined.data).map String.mk))

/-! Part: Integer and float literal parsing (`str::parse` in `parse_value`) -/

/-- Numeric value of an ASCII digit. -/
def digitVal (c : Char) : Nat := c.toNat - 48

/-- Decimal digit-string acceptance and value (the core of Rust
`str::parse` for unsigned numbers: nonempty, all ASCII digits). -/
def parseNatDigits (cs : List Char) : Option Nat :=
  if cs ≠ [] ∧ cs.all Char.isDigit then
    some (cs.foldl (fun a c => a * 10 + digitVal c) 0)
  else none

def i64Max : Int := 2 ^ 63 - 1

def i64Min : Int := -(2 ^ 63)

/-- Model of `str::parse::<i64>`: optional sign, decimal digits, failure on
anything else or on overflow of the 64-bit signed range. -/
def parseI64 (s : String) : Option Int :=
  match s.data with
  | '+' :: rest =>
    (parseNatDigits rest).bind fun n =>
      if (n : Int) ≤ i64Max then some (n : Int) else none
  | '-' :: rest =>
    (parseNatDigits rest).bind fun n =>
      if i64Min ≤ -(n : Int) then some (-(n : Int)) else none
  | cs =>
    (parseNatDigits cs).bind fun n =>
      if (n : Int) ≤ i64Max then some (n : Int) else none

/-- Exponent clause of the float grammar: `[eE] [+-]? digits`, returning the
signed exponent. -/
def parseExpClause (cs : List Char) : Option Int :=
  match cs with
  | e :: rest =>
    if e = 'e' ∨ e = 'E' then
      match rest with
      | '+' :: ds => (parseNatDigits ds).map fun n => (n : Int)
      | '-' :: ds => (parseNatDigits ds).map fun n => -(n : Int)
      | ds => (parseNatDigits ds).map fun n => (n : Int)
    else none
  | [] => none

/-- Integral and fractional part of the float grammar: `digits ['.' digits?] | '.' digits`,
returning the combined mantissa digits and the fractional length, together
with any remaining characters (the exponent clause). -/
def parseMantissa (cs : List Char) : Option (Nat × Nat × List Char) :=
  let intPart := cs.takeWhile Char.isDigit
  let rest := cs.dropWhile Char.isDigit
  match rest with
  | '.' :: rest2 =>
    let fracPart := rest2.takeWhile Char.isDigit
    let rest3 := rest2.dropWhile Char.isDigit
    if intPart = [] ∧ fracPart = [] then none
    else
      some ((intPart ++ fracPart).foldl (fun a c => a * 10 + digitVal c) 0,
            fracPart.length, rest3)
  | _ =>
    if intPart = [] then none
    else some (intPart.foldl (fun a c => a * 10 + digitVal c) 0, 0, rest)

/-- Finite float value of mantissa/fraction-length/exponent, as an exact
rational (`m / 10^fracLen * 10^exp`). -/
def f64OfParts (neg : Bool) (m fracLen : Nat) (exp : Int) : F64 :=
  let e : Int := exp - (fracLen : Int)
  let mag : Rat :=
    if 0 ≤ e then (m : Rat) * (10 : Rat) ^ e.toNat
    else (m : Rat) / (10 : Rat) ^ (-e).toNat
  .finite (if neg then -mag else mag)

/-- Unsigned body of the float grammar. -/
def parseF64Body (neg : Bool) (cs : List Char) : Option F64 :=
  let lower := cs.map Char.toLower
  if lower = "inf".data ∨ lower = "infinity".data then
    some (if neg then .neginf else .inf)
  else if lower = "nan".data then some .nan
  else
    match parseMantissa cs with
    | none => none
    | some (m, fracLen, rest) =>
      match rest with
      | [] => some (f64OfParts neg m fracLen 0)
      | _ =>
        match parseExpClause rest with
        | some exp => some (f64OfParts neg m fracLen exp)
        | none => none

/-- Model of `str::parse::<f64>`: optional sign, then `inf`/`infinity`/`nan`
(case-insensitive) or a decimal number with optional fraction and exponent.
Finite results are exact rationals (IEEE rounding out of scope). -/
def parseF64 (s : String) : Option F64 :=
  match s.data with
  | '+' :: rest => parseF64Body false rest
  | '-' :: rest => parseF64Body true rest
  | cs => parseF64Body false cs

/-! Part: The INI value classifier (`formats/ini.rs::parse_value`) -/

/-- Rust `parse_value` from `src/formats/ini.rs`: quoted → string; boolean word →
boolean; 64-bit integer → integer; 64-bit float → float; otherwise the
verbatim string. -/
def parse_value (value_str : String) : ConfigValue :=
  if is_quoted value_str then .str (unquote value_str)
  else
    let lower := toLowercase value_str
    if lower = "true" ∨ lower = "yes" ∨ lower = "on" ∨ lower = "1" then .bool true
    else if lower = "false" ∨ lower = "no" ∨ lower = "off" ∨ lower = "0" then .bool false
    else
      match parseI64 value_str with
      | some i => .int i
      | none =>
        match parseF64 value_str with
        | some f => .float f
        | none => .str value_str

/-! Part: Format detection (`src/lib.rs`, `src/include.rs`) -/

/-- Rust `impl From<&str> for ConfigFormat` (`src/lib.rs`): case-insensitive
format names, with `yml` as an alias of `yaml`. -/
def ConfigFormat.fromStr (s : String) : ConfigFormat :=
  let l := toLowercase s
  if l = "ini" then .ini
  else if l = "toml" then .toml
  else if l = "yaml" ∨ l = "yml" then .yaml
  else if l = "json" then .json
  else .unknown

/-- Model of `first_line.trim_start_matches("#!config/")`: Rust's
`trim_start_matches` removes every successive occurrence of the pattern from
the front, not just the first one. -/
def stripShebangReps : List Char → List Char
  | '#' :: '!' :: 'c' :: 'o' :: 'n' :: 'f' :: 'i' :: 'g' :: '/' :: rest =>
    stripShebangReps rest
  | cs => cs

/-- The remainder the detectors inspect: strip all leading `#!config/`
occurrences, then `trim`. -/
def shebangRemainder (first_line : String) : String :=
  String.mk (trimL (stripShebangReps first_line.data))

/-- Rust `Config::detect_format_from_content` (`src/lib.rs`): reads the first
line; a `#!config/` prefix selects the format (failing on unknown names),
anything else defaults to INI. Returned instead of mutating `self.format`. -/
def detect_format_from_content (content : List String) : Except ConfigError ConfigFormat :=
  let first_line := content.head?.getD ""
  if hasShebang first_line then
    let format_str := shebangRemainder first_line
    let f := ConfigFormat.fromStr format_str
    if f = .unknown then .error (.unsupportedFormat format_str) else .ok f
  else .ok .ini

/-- Rust `include::detect_format_from_content` (`src/include.rs`): the
infallible variant used for glob-resolved include files; no prefix means INI. -/
def detectFormatInclude (content : List String) : ConfigFormat :=
  let first_line := content.head?.getD ""
  if hasShebang first_line then ConfigFormat.fromStr (shebangRemainder first_line)
  else .ini

/-! Part: INI line grammar (`src/formats/ini.rs`).

The three regexes of `parse_ini` admit unique decompositions, reproduced
here directly:
* `^\s*\[(.*?)\]\s*$` — after trimming, the line starts with `[`, ends with
  `]`, and the group is everything in between (the lazy group backtracks to
  the last `]` that is followed only by whitespace, which is the final one);
* `^\s*(.*?)\s*=\s*(.*?)\s*$` — split at the first `=`, both sides trimmed;
* `^\s*include\s*=\s*(.*?)\s*$` — literal `include`, optional whitespace,
  `=`, value trimmed. -/

/-- Match of the section-header regex. -/
def matchSectionLine (line : String) : Option String :=
  match trimL line.data with
  | '[' :: rest =>
    if rest.getLast? = some ']' then some (String.mk rest.dropLast) else none
  | _ => none

/-- Match of the include-directive regex. -/
def matchIncludeLine (line : String) : Option String :=
  let t := ltrimL line.data
  if "include".data.isPrefixOf t then
    match ltrimL (t.drop 7) with
    | '=' :: rest => some (String.mk (trimL rest))
    | _ => none
  else none

/-- Match of the key/value regex: split at the first `=`. -/
def matchKVLine (line : String) : Option (String × String) :=
  if line.data.contains '=' then
    some (String.mk (trimL (line.data.takeWhile (· != '='))),
          String.mk (trimL ((line.data.dropWhile (· != '=')).drop 1)))
  else none

/-! Part: File system model and glob matching -/

/-- The file system seen by a load: a mapping from paths to file contents
(as line lists). File reads in the source become lookups here. -/
structure FS where
  files : List (String × List String)

/-- Read a file (Rust `fs::read_to_string` + `str::lines`). -/
def FS.read (fs : FS) (p : String) : Option (List String) :=
  AListC.get fs.files p

/-- Wildcard matching for the `glob` crate's `*` (any run of characters
within one path component); claims use only literal characters and `*`.
The structural fuel strictly dominates the recursion depth (every call
drops a pattern or path character), so `globMatch` below is exact. -/
def globMatchF : Nat → List Char → List Char → Bool
  | 0, _, _ => false
  | _ + 1, [], [] => true
  | _ + 1, [], _ :: _ => false
  | fuel + 1, '*' :: ps, [] => globMatchF fuel ps []
  | fuel + 1, '*' :: ps, c :: cs =>
    globMatchF fuel ps (c :: cs) || (c != '/' && globMatchF fuel ('*' :: ps) cs)
  | fuel + 1, p :: ps, c :: cs => p == c && globMatchF fuel ps cs
  | _ + 1, _ :: _, [] => false

/-- Wildcard matching with sufficient fuel. -/
def globMatch (ps cs : List Char) : Bool :=
  globMatchF (ps.length + cs.length + 1) ps cs

/-- Glob expansion against the model file system, in file-list order (the
source's enumeration order is file-system defined, spec §4.4). -/
def FS.glob (fs : FS) (pattern : String) : List String :=
  (fs.files.map Prod.fst).filter fun p => globMatch pattern.data p.data

/-! Part: The INI parser with include resolution (`src/formats/ini.rs`,
`src/include.rs`).

The source recurses through the file system with no cycle detection
(spec §9); the model adds a `fuel` parameter consumed once per include
directive, erroring when exhausted — runs of the source that terminate
are reproduced by any sufficiently large fuel. -/

/-- The shape of the include-resolution hook handed to the line parser:
given the store built so far, the include path and the including file's
path, produce the store with the include merged in. The source ties this
knot by direct recursion through the file system with no cycle detection
(spec §9); the model instantiates the hook with the fuel-indexed
`process_include` below, so that terminating runs of the source are
reproduced by every sufficiently large fuel. -/
def IncludeHandler : Type := Config → String → String → Except ConfigError Config

/-- The line loop of Rust `parse_ini` (`src/formats/ini.rs`), with the
current section threaded as state: strip comments, skip empty lines, then
try include directive, section header, key/value pair, in that order. -/
def parseIniLinesH (h : IncludeHandler) (config : Config)
    (current_section : String) (lines : List String) (path : String) :
    Except ConfigError (Config × String) :=
  match lines with
  | [] => .ok (config, current_section)
  | line :: rest =>
    let l := strip_comments line
    if l.data.isEmpty then parseIniLinesH h config current_section rest path
    else
      match matchIncludeLine l with
      | some include_path =>
        match h config include_path path with
        | .error e => .error e
        | .ok config' => parseIniLinesH h config' current_section rest path
      | none =>
        match matchSectionLine l with
        | some sec => parseIniLinesH h config sec rest path
        | none =>
          match matchKVLine l with
          | some kv =>
            parseIniLinesH h
              (config.set current_section kv.1 (parse_value kv.2))
              current_section rest path
          | none => parseIniLinesH h config current_section rest path

/-- Rust `parse_ini` (`src/formats/ini.rs`), parameterised by the include
hook: skip a `#!config/` first line, then run the line loop from the
`default` section. -/
def parse_iniH (h : IncludeHandler) (config : Config) (content : List String)
    (path : String) : Except ConfigError Config :=
  let lines_to_process :=
    if hasShebang (content.head?.getD "") then content.tail else content
  (parseIniLinesH h config "default" lines_to_process path).map Prod.fst

/-- Rust `include::include_content` (`src/include.rs`): detect the format of
an included file's content, parse INI (also when the detected format is
unknown), and refuse the three structured formats with an
unsupported-format error. -/
def include_contentH (h : IncludeHandler) (config : Config)
    (content : List String) (path : String) : Except ConfigError Config :=
  match detectFormatInclude content with
  | .ini => parse_iniH h config content path
  | .toml => .error (.unsupportedFormat "TOML")
  | .yaml => .error (.unsupportedFormat "YAML")
  | .json => .error (.unsupportedFormat "JSON")
  | .unknown => parse_iniH h config content path

/-- The per-match loop of Rust `include::process_glob_include`: read each
matching file and feed it to `include_content`. -/
def globIncludeListH (fs : FS) (h : IncludeHandler) (config : Config)
    (paths : List String) : Except ConfigError Config :=
  match paths with
  | [] => .ok config
  | p :: rest =>
    match fs.read p with
    | none => .error (.includeError ("Error reading included file " ++ p))
    | some content =>
      match include_contentH h config content p with
      | .error e => .error e
      | .ok config' => globIncludeListH fs h config' rest

/-- Rust `include::process_glob_include` (`src/include.rs`): expand the
pattern relative to the including file and fail when nothing matches. -/
def process_glob_includeH (fs : FS) (h : IncludeHandler) (config : Config)
    (glob_pattern base_path : String) : Except ConfigError Config :=
  let resolved_pattern := resolve_path base_path glob_pattern
  let entries := fs.glob resolved_pattern
  if entries.isEmpty then
    .error (.includeError ("No files found for pattern: " ++ glob_pattern))
  else globIncludeListH fs h config entries

/-- Rust `process_include` (`src/formats/ini.rs`), the fuel-indexed knot of
the include recursion: glob patterns go through the Include Resolver; a
literal path is resolved and parsed as INI again — with no format detection
on the included file's own content. Fuel is consumed once per include
nesting level. -/
def process_include (fs : FS) : Nat → IncludeHandler
  | 0 => fun _ _ _ => .error (.includeError "include nesting exceeds model fuel")
  | fuel + 1 => fun config include_path base_path =>
    if include_path.data.contains '*' then
      process_glob_includeH fs (process_include fs fuel) config include_path base_path
    else
      let resolved := resolve_path base_path include_path
      match fs.read resolved with
      | some content => parse_iniH (process_include fs fuel) config content resolved
      | none => .error (.includeError ("Included file not found: " ++ resolved))

/-- Rust `parse_ini` with the include hook instantiated. -/
def parse_ini (fs : FS) (fuel : Nat) (config : Config) (content : List String)
    (path : String) : Except ConfigError Config :=
  parse_iniH (process_include fs fuel) config content path

/-- Rust `include::include_content` with the include hook instantiated. -/
def include_content (fs : FS) (fuel : Nat) (config : Config)
    (content : List String) (path : String) : Except ConfigError Config :=
  include_contentH (process_include fs fuel) config content path

/-- Rust `include::process_glob_include` with the include hook instantiated. -/
def process_glob_include (fs : FS) (fuel : Nat) (config : Config)
    (glob_pattern base_path : String) : Except ConfigError Config :=
  process_glob_includeH fs (process_include fs fuel) config glob_pattern base_path

/-! Part: Loading and saving (`src/lib.rs`, `src/formats/ini.rs`).

The TOML/YAML/JSON converters hand the file body to external libraries and
are excluded from the core as black boxes (spec §1); their branches below
stand for "delegated to an external converter" and no theorem in this file
depends on them. -/

/-- Rust `Config::load_from_file`: read, detect the format from content,
dispatch to the format's parser. -/
def load_from_file (fs : FS) (fuel : Nat) (config : Config) (path : String) :
    Except ConfigError Config :=
  match fs.read path with
  | none => .error .io
  | some content =>
    match detect_format_from_content content with
    | .error e => .error e
    | .ok fmt =>
      let config := { config with format := fmt }
      match fmt with
      | .ini => parse_ini fs fuel config content path
      | .toml => .error (.generic "external format-B converter (spec excludes it)")
      | .yaml => .error (.generic "external format-C converter (spec excludes it)")
      | .json => .error (.generic "external format-D converter (spec excludes it)")
      | .unknown => .error (.unsupportedFormat "Unknown")

/-- Decimal digits of a natural number, least significant first, with a
structural fuel bound (any fuel of at least the digit count is exact;
`natRepr` passes `n` itself, which always suffices). -/
def natDigitsRevF : Nat → Nat → List Char
  | 0, _ => []
  | fuel + 1, n =>
    if n = 0 then [] else Char.ofNat (48 + n % 10) :: natDigitsRevF fuel (n / 10)

/-- Decimal representation of a natural number (Rust `Display`). -/
def natRepr (n : Nat) : String :=
  if n = 0 then "0" else String.mk (natDigitsRevF n n).reverse

/-- Rust `i64` `Display`: optional minus sign and decimal digits. -/
def i64Repr (i : Int) : String :=
  if i < 0 then "-" ++ natRepr i.natAbs else natRepr i.natAbs

/-- Rust `f64` `Display`, to the extent the claims need it: integral finite
values print without a decimal point (`3.0` prints as `3`, which is what the
round-trip analysis relies on); the shortest-decimal rendering of
non-integral values is not modelled and no theorem depends on it. -/
def f64Display : F64 → String
  | .inf => "inf"
  | .neginf => "-inf"
  | .nan => "NaN"
  | .finite q =>
    if q.den = 1 then i64Repr q.num
    else i64Repr q.num ++ "div" ++ natRepr q.den

mutual

/-- Rust `derive(Debug)` output for `ConfigValue`, used by `format_value`
for tables (spec §9 calls these debug-style strings lossy by design). -/
def debugValue : ConfigValue → String
  | .str s => "String(\"" ++ s ++ "\")"
  | .int i => "Integer(" ++ i64Repr i ++ ")"
  | .float f => "Float(" ++ f64Display f ++ ")"
  | .bool b => "Boolean(" ++ (if b then "true" else "false") ++ ")"
  | .arr a => "Array([" ++ debugItems a ++ "])"
  | .table t => "Table(\x7b" ++ debugEntries t ++ "\x7d)"

/-- Comma-joined debug output of array items. -/
def debugItems : List ConfigValue → String
  | [] => ""
  | [v] => debugValue v
  | v :: v' :: rest => debugValue v ++ ", " ++ debugItems (v' :: rest)

/-- Comma-joined debug output of table entries. -/
def debugEntries : List (String × ConfigValue) → String
  | [] => ""
  | [(k, v)] => "\"" ++ k ++ "\": " ++ debugValue v
  | (k, v) :: e :: rest =>
    "\"" ++ k ++ "\": " ++ debugValue v ++ ", " ++ debugEntries (e :: rest)

end

mutual

/-- Rust `format_value` (`src/formats/ini.rs`): strings quoted without any
escaping, numbers and booleans bare, arrays joined into one quoted string,
tables as a quoted debug string. -/
def format_value : ConfigValue → String
  | .str s => "\"" ++ s ++ "\""
  | .int i => i64Repr i
  | .float f => f64Display f
  | .bool b => if b then "true" else "false"
  | .arr a => "\"" ++ formatItems a ++ "\""
  | .table t => "\"" ++ debugValue (.table t) ++ "\""

/-- Comma-joined `format_value` output of array items (`items.join(", ")`). -/
def formatItems : List ConfigValue → String
  | [] => ""
  | [v] => format_value v
  | v :: v' :: rest => format_value v ++ ", " ++ formatItems (v' :: rest)

end

/-- Rust `write_ini` (`src/formats/ini.rs`) as the list of lines written:
the shebang header, then for every section (the empty default section
skipped) a blank line, the header, and one line per key. -/
def write_ini (config : Config) : List String :=
  "#!config/ini" ::
    (config.values.map fun sv =>
      if sv.1 = "default" ∧ sv.2.isEmpty then []
      else "" :: ("[" ++ sv.1 ++ "]") ::
        sv.2.map fun kv => kv.1 ++ " = " ++ format_value kv.2).flatten

/-- Rust `Config::save_to_file`, returning the written lines: dispatches on
the current format; the structured formats serialize through external
libraries (spec §1) and are not modelled. -/
def save_to_file (config : Config) : Except ConfigError (List String) :=
  match config.format with
  | .ini => .ok (write_ini config)
  | .toml => .error (.generic "external format-B serializer (spec excludes it)")
  | .yaml => .error (.generic "external format-C serializer (spec excludes it)")
  | .json => .error (.generic "external format-D serializer (spec excludes it)")
  | .unknown => .error (.unsupportedFormat "Sconosciuto")

/-! Part: Validation engine (`src/validation.rs`) -/

/-- Rust `ValueType`: the value types a schema field can declare. -/
inductive ValueType where
  | string
  | integer
  | float
  | boolean
  | array
  | table
  | any
deriving DecidableEq

/-- Rust `impl From<&ConfigValue> for ValueType`. -/
def ValueType.of : ConfigValue → ValueType
  | .str _ => .string
  | .int _ => .integer
  | .float _ => .float
  | .bool _ => .boolean
  | .arr _ => .array
  | .table _ => .table

mutual

/-- Rust `FieldDefinition`: declared type, required flag, optional default,
ordered constraint list, optional description. -/
inductive FieldDefinition where
  | mk (value_type : ValueType) (required : Bool)
       (default_value : Option ConfigValue)
       (constraints : List FieldConstraint)
       (description : Option String)

/-- Rust `FieldConstraint`. A regex pattern is modelled as its source text
together with its matching function; a custom constraint carries its
predicate (Rust `ValidateFn`). -/
inductive FieldConstraint where
  | string (min_length max_length : Option Nat)
           (pattern : Option (String × (String → Bool)))
           (allowed_values : Option (List String))
  | integer (min max : Option Int) (allowed_values : Option (List Int))
  | float (min max : Option F64)
  | array (min_length max_length : Option Nat)
          (item_type : Option FieldDefinition)
  | custom (validate_fn : ConfigValue → Except String Unit) (description : String)

end

/-- Projection: declared value type. -/
def FieldDefinition.value_type : FieldDefinition → ValueType
  | .mk vt _ _ _ _ => vt

/-- Projection: required flag. -/
def FieldDefinition.required : FieldDefinition → Bool
  | .mk _ r _ _ _ => r

/-- Projection: declared default value. -/
def FieldDefinition.default_value : FieldDefinition → Option ConfigValue
  | .mk _ _ d _ _ => d

/-- Projection: ordered constraint list. -/
def FieldDefinition.constraints : FieldDefinition → List FieldConstraint
  | .mk _ _ _ cs _ => cs

/-- Rust `ValidationError` (`src/validation.rs`), every variant with the
data the source stores (the `allowed` fields hold the source's formatted
debug string; the model stores the allowed values themselves). -/
inductive ValidationError where
  | missingSection (section_ : String)
  | unknownSection (section_ : String)
  | missingField (path : String)
  | unknownKey (section_ key : String)
  | typeMismatch (path : String) (expected actual : ValueType)
  | stringTooShort (path : String) (min actual : Nat)
  | stringTooLong (path : String) (max actual : Nat)
  | patternMismatch (path pattern value : String)
  | invalidValue (path : String) (allowed : List String) (actual : String)
  | integerTooSmall (path : String) (min actual : Int)
  | integerTooLarge (path : String) (max actual : Int)
  | invalidInteger (path : String) (allowed : List Int) (actual : Int)
  | floatTooSmall (path : String) (min actual : F64)
  | floatTooLarge (path : String) (max actual : F64)
  | arrayTooShort (path : String) (min actual : Nat)
  | arrayTooLong (path : String) (max actual : Nat)
  | customConstraintFailed (path description message : String)
deriving DecidableEq

mutual

/-- Rust `FieldDefinition::validate`: absent and required → missing-field;
absent and optional → ok; present → type check (skipped for `Any`), then
the constraints in declaration order, each propagating its error with `?`
(so validation of one field stops at the first failing constraint). -/
def FieldDefinition.validate : FieldDefinition → Option ConfigValue → String →
    Except ValidationError Unit
  | .mk _ required _ _ _, none, path =>
    if required then .error (.missingField path) else .ok ()
  | .mk value_type _ _ constraints _, some v, path =>
    if value_type ≠ ValueType.any ∧ ValueType.of v ≠ value_type then
      .error (.typeMismatch path value_type (ValueType.of v))
    else validateConstraints constraints v path
termination_by fd _ _ => (sizeOf fd, 0)

/-- The constraint loop of `FieldDefinition::validate`:
`constraint.validate(value, path)?`. -/
def validateConstraints (cs : List FieldConstraint) (v : ConfigValue)
    (path : String) : Except ValidationError Unit :=
  match cs with
  | [] => .ok ()
  | c :: rest =>
    match FieldConstraint.validate c v path with
    | .error e => .error e
    | .ok _ => validateConstraints rest v path
termination_by (sizeOf cs, 0)

/-- Rust `FieldConstraint::validate`: type-keyed checks in source order
(each failing check returns immediately); a typed constraint is inert
against a value of another type, `custom` always runs. -/
def FieldConstraint.validate (c : FieldConstraint) (value : ConfigValue)
    (path : String) : Except ValidationError Unit :=
  match c with
  | .string min_length max_length pattern allowed_values =>
    match value with
    | .str s =>
      let checkAllowed : Except ValidationError Unit :=
        match allowed_values with
        | some allowed =>
          if s ∉ allowed then .error (.invalidValue path allowed s) else .ok ()
        | none => .ok ()
      let checkPattern : Except ValidationError Unit :=
        match pattern with
        | some regex =>
          if regex.2 s = false then .error (.patternMismatch path regex.1 s)
          else checkAllowed
        | none => checkAllowed
      let checkMax : Except ValidationError Unit :=
        match max_length with
        | some max =>
          if max < s.length then .error (.stringTooLong path max s.length)
          else checkPattern
        | none => checkPattern
      match min_length with
      | some min =>
        if s.length < min then .error (.stringTooShort path min s.length)
        else checkMax
      | none => checkMax
    | _ => .ok ()
  | .integer min max allowed_values =>
    match value with
    | .int i =>
      let checkAllowed : Except ValidationError Unit :=
        match allowed_values with
        | some allowed =>
          if i ∉ allowed then .error (.invalidInteger path allowed i) else .ok ()
        | none => .ok ()
      let checkMax : Except ValidationError Unit :=
        match max with
        | some max_val =>
          if max_val < i then .error (.integerTooLarge path max_val i)
          else checkAllowed
        | none => checkAllowed
      match min with
      | some min_val =>
        if i < min_val then .error (.integerTooSmall path min_val i)
        else checkMax
      | none => checkMax
    | _ => .ok ()
  | .float min max =>
    match value with
    | .float f =>
      let checkMax : Except ValidationError Unit :=
        match max with
        | some max_val =>
          if F64.bgt f max_val then .error (.floatTooLarge path max_val f)
          else .ok ()
        | none => .ok ()
      match min with
      | some min_val =>
        if F64.blt f min_val then .error (.floatTooSmall path min_val f)
        else checkMax
      | none => checkMax
    | _ => .ok ()
  | .array min_length max_length item_type =>
    match value with
    | .arr items =>
      let checkItems : Except ValidationError Unit :=
        match item_type with
        | some item_def => validateArrayItems item_def items 0 path
        | none => .ok ()
      let checkMax : Except ValidationError Unit :=
        match max_length with
        | some max =>
          if max < items.length then .error (.arrayTooLong path max items.length)
          else checkItems
        | none => checkItems
      match min_length with
      | some min =>
        if items.length < min then .error (.arrayTooShort path min items.length)
        else checkMax
      | none => checkMax
    | _ => .ok ()
  | .custom validate_fn description =>
    match validate_fn value with
    | .error msg => .error (.customConstraintFailed path description msg)
    | .ok _ => .ok ()
termination_by (sizeOf c, 0)

/-- The element loop of the array constraint: each item re-validated against
the item definition with the path suffixed `[index]`. -/
def validateArrayItems (item_def : FieldDefinition) (items : List ConfigValue)
    (idx : Nat) (path : String) : Except ValidationError Unit :=
  match items with
  | [] => .ok ()
  | item :: rest =>
    match item_def.validate (some item) (path ++ "[" ++ natRepr idx ++ "]") with
    | .error e => .error e
    | .ok _ => validateArrayItems item_def rest (idx + 1) path
termination_by (sizeOf item_def + 1, items.length)

end

/-- Rust `ValidationSchema`. -/
structure ValidationSchema where
  sections : List (String × List (String × FieldDefinition))
  required_sections : List String
  allow_unknown_sections : Bool
  allow_unknown_keys : Bool

namespace ValidationSchema

/-- Rust `ValidationSchema::new`: unknown sections and keys allowed. -/
def new : ValidationSchema :=
  { sections := [], required_sections := [], allow_unknown_sections := true,
    allow_unknown_keys := true }

/-- Rust `ValidationSchema::section`: (re)insert an empty field map. -/
def section_ (schema : ValidationSchema) (name : String) : ValidationSchema :=
  { schema with sections := AListC.insert schema.sections name [] }

/-- Rust `ValidationSchema::required_section` (`HashSet::insert`). -/
def required_section (schema : ValidationSchema) (name : String) : ValidationSchema :=
  let schema := schema.section_ name
  if name ∈ schema.required_sections then schema
  else { schema with required_sections := schema.required_sections ++ [name] }

/-- Rust `ValidationSchema::field`: create the section when absent, then
insert the field definition. -/
def field (schema : ValidationSchema) (section_ key : String)
    (definition : FieldDefinition) : ValidationSchema :=
  let schema :=
    if (AListC.get schema.sections section_).isSome then schema
    else schema.section_ section_
  match AListC.get schema.sections section_ with
  | some fields =>
    { schema with
      sections := AListC.insert schema.sections section_ (AListC.insert fields key definition) }
  | none => schema

/-- Step 1 of `ValidationSchema::validate`: missing required sections. -/
def requiredSectionErrors (schema : ValidationSchema) (config : Config) :
    List ValidationError :=
  schema.required_sections.filterMap fun s =>
    if AListC.containsKey config.values s then none
    else some (.missingSection s)

/-- Step 2 of `ValidationSchema::validate`: per-section field checks,
unknown-section and unknown-key errors. -/
def sectionErrors (schema : ValidationSchema) (config : Config) :
    List ValidationError :=
  config.values.flatMap fun sv =>
    match AListC.get schema.sections sv.1 with
    | none =>
      if schema.allow_unknown_sections then [] else [.unknownSection sv.1]
    | some section_schema =>
      (section_schema.flatMap fun fv =>
        match fv.2.validate (AListC.get sv.2 fv.1) (sv.1 ++ "." ++ fv.1) with
        | .error e => [e]
        | .ok _ => []) ++
      (if schema.allow_unknown_keys then []
       else sv.2.filterMap fun kv =>
         if (AListC.get section_schema kv.1).isSome then none
         else some (.unknownKey sv.1 kv.1))

/-- All errors accumulated by `ValidationSchema::validate`, in pass order. -/
def collect_errors (schema : ValidationSchema) (config : Config) :
    List ValidationError :=
  requiredSectionErrors schema config ++ sectionErrors schema config

/-- Rust `ValidationSchema::validate`: succeed exactly when the accumulated
error list is empty, otherwise return all errors together. -/
def validate (schema : ValidationSchema) (config : Config) :
    Except (List ValidationError) Unit :=
  let errors := collect_errors schema config
  if errors.isEmpty then .ok () else .error errors

/-- The per-field step of Rust `ValidationSchema::apply_defaults`: insert
the declared default when the key is absent from its section of the store,
do nothing otherwise (never overwrite). -/
def applyFieldDefault (section_name : String) (cfg : Config)
    (fv : String × FieldDefinition) : Config :=
  match fv.2.default_value with
  | some d =>
    if (match AListC.get cfg.values section_name with
        | some s => AListC.containsKey s fv.1
        | none => false) then cfg
    else cfg.set section_name fv.1 d
  | none => cfg

/-- Rust `ValidationSchema::apply_defaults` as the fold of the per-field
step over every schema section and field. -/
def apply_defaults (schema : ValidationSchema) (config : Config) : Config :=
  schema.sections.foldl
    (fun cfg sv => sv.2.foldl (applyFieldDefault sv.1) cfg)
    config

end ValidationSchema

/-! Part: Store lemmas -/

theorem alist_get_insert {α : Type} (m : List (String × α)) (k k' : String) (v : α) :
    AListC.get (AListC.insert m k v) k' = if k = k' then some v else AListC.get m k' := by
  induction m with
  | nil => by_cases h : k = k' <;> simp [AListC.insert, AListC.get, h]
  | cons hd tl ih =>
    obtain ⟨k0, v0⟩ := hd
    by_cases h0 : k0 = k
    · subst h0
      by_cases h1 : k0 = k' <;> simp [AListC.insert, AListC.get, h1]
    · by_cases h1 : k0 = k'
      · have h2 : ¬k = k' := fun hh => h0 (h1.trans hh.symm)
        have h3 : ¬k' = k := fun hh => h2 hh.symm
        simp [AListC.insert, AListC.get, h0, h1, h2, h3]
      · simp [AListC.insert, AListC.get, h0, h1, ih]

theorem config_get_set (c : Config) (s k : String) (v : ConfigValue) (s' k' : String) :
    (c.set s k v).get s' k' =
      if s = s' ∧ k = k' then some v else c.get s' k' := by
  unfold Config.set Config.get
  rcases hsec : AListC.get c.values s with _ | m
  · simp only [alist_get_insert]
    by_cases hs : s = s'
    · subst hs
      by_cases hk : k = k' <;> simp [AListC.get, hk, hsec]
    · simp [hs]
  · simp only [alist_get_insert]
    by_cases hs : s = s'
    · subst hs
      by_cases hk : k = k' <;> simp [alist_get_insert, hk, hsec]
    · simp [hs]

theorem config_set_format (c : Config) (s k : String) (v : ConfigValue) :
    (c.set s k v).format = c.format := by
  unfold Config.set
  rcases AListC.get c.values s with _ | m <;> rfl

/-! Part: Claim C10 — asymmetry of the typed getters -/

/-- C10: the typed getters treat their default argument asymmetrically at
the public interface: when `(section, key)` exists but holds a value of the
wrong type, `get_string` returns `none` and ignores the supplied default,
while `get_integer`, `get_float` and `get_boolean` return the supplied
default; when the key is entirely absent, all four return the default. -/
theorem C10_typed_getter_default_asymmetry (c : Config) (s k : String) :
    (∀ (v : ConfigValue) (d : String), c.get s k = some v → v.as_string = none →
      c.get_string s k (some d) = none) ∧
    (∀ (v : ConfigValue) (d : Int), c.get s k = some v → v.as_integer = none →
      c.get_integer s k (some d) = some d) ∧
    (∀ (v : ConfigValue) (d : F64), c.get s k = some v → v.as_float = none →
      c.get_float s k (some d) = some d) ∧
    (∀ (v : ConfigValue) (d : Bool), c.get s k = some v → v.as_boolean = none →
      c.get_boolean s k (some d) = some d) ∧
    (c.get s k = none →
      ∀ (dS : Option String) (dI : Option Int) (dF : Option F64) (dB : Option Bool),
        c.get_string s k dS = dS ∧ c.get_integer s k dI = dI ∧
        c.get_float s k dF = dF ∧ c.get_boolean s k dB = dB) := by
  refine ⟨?_, ?_, ?_, ?_, ?_⟩
  · intro v d hv hts
    simp [Config.get_string, hv, hts]
  · intro v d hv hts
    simp [Config.get_integer, hv, hts, Option.orElse]
  · intro v d hv hts
    simp [Config.get_float, hv, hts, Option.orElse]
  · intro v d hv hts
    simp [Config.get_boolean, hv, hts, Option.orElse]
  · intro hv dS dI dF dB
    refine ⟨?_, ?_, ?_, ?_⟩ <;>
      simp [Config.get_string, Config.get_integer, Config.get_float,
        Config.get_boolean, hv]

/-- Witness for C10 at a concrete store: a boolean value sits at
`("s", "k")`, so `get_string` ignores its default while `get_integer`
returns it; at the absent key `"missing"` both return the default. -/
theorem C10_witness :
    ((Config.new.set "s" "k" (.bool true)).get_string "s" "k" (some "d") = none) ∧
    ((Config.new.set "s" "k" (.bool true)).get_integer "s" "k" (some 7) = some 7) ∧
    ((Config.new.set "s" "k" (.bool true)).get_float "s" "k" (some .inf) = some .inf) ∧
    ((Config.new.set "s" "k" (.bool true)).get_string "s" "missing" (some "d") = some "d") := by
  have h := C10_typed_getter_default_asymmetry (Config.new.set "s" "k" (.bool true)) "s" "k"
  have habs := C10_typed_getter_default_asymmetry (Config.new.set "s" "k" (.bool true)) "s" "missing"
  refine ⟨h.1 (.bool true) "d" rfl rfl, h.2.1 (.bool true) 7 rfl rfl, ?_, ?_⟩
  · exact h.2.2.1 (.bool true) .inf rfl rfl
  · exact (habs.2.2.2.2 rfl (some "d") (some 7) (some .inf) (some true)).1

/-! Part: Claim C8 — apply_defaults lemmas -/

theorem afd_guard_eq (cfg : Config) (sn key : String) :
    (match AListC.get cfg.values sn with
     | some sm => AListC.containsKey sm key
     | none => false) = (cfg.get sn key).isSome := by
  unfold Config.get AListC.containsKey
  rcases AListC.get cfg.values sn with _ | sm <;> simp

theorem applyFieldDefault_none (sn : String) (cfg : Config)
    (fv : String × FieldDefinition) (hd : fv.2.default_value = none) :
    ValidationSchema.applyFieldDefault sn cfg fv = cfg := by
  unfold ValidationSchema.applyFieldDefault
  rw [hd]

theorem applyFieldDefault_some (sn : String) (cfg : Config)
    (fv : String × FieldDefinition) (d : ConfigValue)
    (hd : fv.2.default_value = some d) :
    ValidationSchema.applyFieldDefault sn cfg fv =
      if (cfg.get sn fv.1).isSome then cfg else cfg.set sn fv.1 d := by
  unfold ValidationSchema.applyFieldDefault
  rw [hd, afd_guard_eq]

theorem applyFieldDefault_get_present (sn : String) (cfg : Config)
    (fv : String × FieldDefinition) (s k : String) (v : ConfigValue)
    (hv : cfg.get s k = some v) :
    (ValidationSchema.applyFieldDefault sn cfg fv).get s k = some v := by
  rcases hd : fv.2.default_value with _ | d
  · rw [applyFieldDefault_none sn cfg fv hd]
    exact hv
  · rw [applyFieldDefault_some sn cfg fv d hd]
    by_cases hp : (cfg.get sn fv.1).isSome
    · simp [hp, hv]
    · rw [if_neg hp, config_get_set]
      by_cases ht : sn = s ∧ fv.1 = k
      · rw [ht.1, ht.2, hv] at hp
        simp at hp
      · simp [ht, hv]

theorem applyFieldDefault_get_other (sn : String) (cfg : Config)
    (fv : String × FieldDefinition) (s k : String)
    (hne : ¬(sn = s ∧ fv.1 = k)) :
    (ValidationSchema.applyFieldDefault sn cfg fv).get s k = cfg.get s k := by
  rcases hd : fv.2.default_value with _ | d
  · rw [applyFieldDefault_none sn cfg fv hd]
  · rw [applyFieldDefault_some sn cfg fv d hd]
    by_cases hp : (cfg.get sn fv.1).isSome
    · simp [hp]
    · rw [if_neg hp, config_get_set]
      simp [hne]

theorem applyFieldDefault_ensures (sn : String) (cfg : Config)
    (fv : String × FieldDefinition) (d : ConfigValue)
    (hd : fv.2.default_value = some d) :
    ((ValidationSchema.applyFieldDefault sn cfg fv).get sn fv.1).isSome := by
  rw [applyFieldDefault_some sn cfg fv d hd]
  by_cases hp : (cfg.get sn fv.1).isSome
  · rw [if_pos hp]
    exact hp
  · rw [if_neg hp, config_get_set]
    simp

theorem applyFieldDefault_noop (sn : String) (cfg : Config)
    (fv : String × FieldDefinition)
    (h : ∀ d, fv.2.default_value = some d → (cfg.get sn fv.1).isSome) :
    ValidationSchema.applyFieldDefault sn cfg fv = cfg := by
  rcases hd : fv.2.default_value with _ | d
  · exact applyFieldDefault_none sn cfg fv hd
  · rw [applyFieldDefault_some sn cfg fv d hd]
    simp [h d hd]

theorem foldFields_get_present (sn : String) (flds : List (String × FieldDefinition))
    (cfg : Config) (s k : String) (v : ConfigValue) (hv : cfg.get s k = some v) :
    (flds.foldl (ValidationSchema.applyFieldDefault sn) cfg).get s k = some v := by
  induction flds generalizing cfg with
  | nil => exact hv
  | cons fv rest ih =>
    exact ih _ (applyFieldDefault_get_present sn cfg fv s k v hv)

theorem foldFields_isSome (sn : String) (flds : List (String × FieldDefinition))
    (cfg : Config) (s k : String) (hv : (cfg.get s k).isSome) :
    ((flds.foldl (ValidationSchema.applyFieldDefault sn) cfg).get s k).isSome := by
  rcases Option.isSome_iff_exists.mp hv with ⟨v, hv⟩
  rw [foldFields_get_present sn flds cfg s k v hv]
  rfl

theorem foldFields_get_otherSection (sn : String) (flds : List (String × FieldDefinition))
    (cfg : Config) (s k : String) (hne : sn ≠ s) :
    (flds.foldl (ValidationSchema.applyFieldDefault sn) cfg).get s k = cfg.get s k := by
  induction flds generalizing cfg with
  | nil => rfl
  | cons fv rest ih =>
    rw [List.foldl_cons, ih _, applyFieldDefault_get_other]
    exact fun hc => hne hc.1

theorem foldFields_get_otherKey (sn : String) (flds : List (String × FieldDefinition))
    (cfg : Config) (s k : String) (hne : k ∉ flds.map Prod.fst) :
    (flds.foldl (ValidationSchema.applyFieldDefault sn) cfg).get s k = cfg.get s k := by
  induction flds generalizing cfg with
  | nil => rfl
  | cons fv rest ih =>
    simp only [List.map_cons, List.mem_cons, not_or] at hne
    rw [List.foldl_cons, ih _ hne.2, applyFieldDefault_get_other]
    exact fun hc => hne.1 hc.2.symm

theorem foldFields_ensures (sn : String) (flds : List (String × FieldDefinition))
    (cfg : Config) (k : String) (fd : FieldDefinition) (d : ConfigValue)
    (hmem : (k, fd) ∈ flds) (hd : fd.default_value = some d) :
    ((flds.foldl (ValidationSchema.applyFieldDefault sn) cfg).get sn k).isSome := by
  induction flds generalizing cfg with
  | nil => cases hmem
  | cons fv rest ih =>
    rcases List.mem_cons.mp hmem with hhead | htail
    · subst hhead
      exact foldFields_isSome sn rest _ sn k (applyFieldDefault_ensures sn cfg (k, fd) d hd)
    · exact ih _ htail

theorem foldFields_value (sn : String) (flds : List (String × FieldDefinition))
    (cfg : Config) (k : String) (fd : FieldDefinition) (d : ConfigValue)
    (hnd : (flds.map Prod.fst).Nodup)
    (hmem : (k, fd) ∈ flds) (hd : fd.default_value = some d)
    (habs : cfg.get sn k = none) :
    (flds.foldl (ValidationSchema.applyFieldDefault sn) cfg).get sn k = some d := by
  induction flds generalizing cfg with
  | nil => cases hmem
  | cons fv rest ih =>
    simp only [List.map_cons, List.nodup_cons] at hnd
    rcases List.mem_cons.mp hmem with hhead | htail
    · subst hhead
      have hstep : (ValidationSchema.applyFieldDefault sn cfg (k, fd)).get sn k = some d := by
        rw [applyFieldDefault_some sn cfg (k, fd) d hd, if_neg (by simp [habs]),
          config_get_set]
        simp
      rw [List.foldl_cons, foldFields_get_otherKey sn rest _ sn k ?_, hstep]
      exact fun hmk => hnd.1 (by simpa using hmk)
    · have hk0 : fv.1 ≠ k := by
        intro hc
        exact hnd.1 (hc ▸ (List.mem_map_of_mem Prod.fst htail))
      rw [List.foldl_cons]
      refine ih _ hnd.2 htail ?_
      rw [applyFieldDefault_get_other sn cfg fv sn k (fun hc => hk0 hc.2)]
      exact habs

theorem foldFields_noop (sn : String) (flds : List (String × FieldDefinition))
    (cfg : Config)
    (h : ∀ fv ∈ flds, ∀ d, fv.2.default_value = some d → (cfg.get sn fv.1).isSome) :
    flds.foldl (ValidationSchema.applyFieldDefault sn) cfg = cfg := by
  induction flds with
  | nil => rfl
  | cons fv rest ih =>
    rw [List.foldl_cons, applyFieldDefault_noop sn cfg fv (h fv (List.mem_cons_self fv rest))]
    exact ih fun fv' hm => h fv' (List.mem_cons_of_mem fv hm)

theorem foldSections_get_present (secs : List (String × List (String × FieldDefinition)))
    (cfg : Config) (s k : String) (v : ConfigValue) (hv : cfg.get s k = some v) :
    (secs.foldl (fun cfg sv => sv.2.foldl (ValidationSchema.applyFieldDefault sv.1) cfg) cfg).get s k
      = some v := by
  induction secs generalizing cfg with
  | nil => exact hv
  | cons sv rest ih =>
    exact ih _ (foldFields_get_present sv.1 sv.2 cfg s k v hv)

theorem foldSections_isSome (secs : List (String × List (String × FieldDefinition)))
    (cfg : Config) (s k : String) (hv : (cfg.get s k).isSome) :
    ((secs.foldl (fun cfg sv => sv.2.foldl (ValidationSchema.applyFieldDefault sv.1) cfg) cfg).get s k).isSome := by
  rcases Option.isSome_iff_exists.mp hv with ⟨v, hv⟩
  rw [foldSections_get_present secs cfg s k v hv]
  rfl

theorem foldSections_get_notMem (secs : List (String × List (String × FieldDefinition)))
    (cfg : Config) (s k : String) (hne : s ∉ secs.map Prod.fst) :
    (secs.foldl (fun cfg sv => sv.2.foldl (ValidationSchema.applyFieldDefault sv.1) cfg) cfg).get s k
      = cfg.get s k := by
  induction secs generalizing cfg with
  | nil => rfl
  | cons sv rest ih =>
    simp only [List.map_cons, List.mem_cons, not_or] at hne
    rw [List.foldl_cons, ih _ hne.2,
      foldFields_get_otherSection sv.1 sv.2 cfg s k (fun hc => hne.1 hc.symm)]

theorem foldSections_ensures (secs : List (String × List (String × FieldDefinition)))
    (cfg : Config) (s k : String) (flds : List (String × FieldDefinition))
    (fd : FieldDefinition) (d : ConfigValue)
    (hs : (s, flds) ∈ secs) (hf : (k, fd) ∈ flds) (hd : fd.default_value = some d) :
    ((secs.foldl (fun cfg sv => sv.2.foldl (ValidationSchema.applyFieldDefault sv.1) cfg) cfg).get s k).isSome := by
  induction secs generalizing cfg with
  | nil => cases hs
  | cons sv rest ih =>
    rcases List.mem_cons.mp hs with hhead | htail
    · subst hhead
      exact foldSections_isSome rest _ s k (foldFields_ensures s flds cfg k fd d hf hd)
    · exact ih _ htail

theorem foldSections_value (secs : List (String × List (String × FieldDefinition)))
    (cfg : Config) (s k : String) (flds : List (String × FieldDefinition))
    (fd : FieldDefinition) (d : ConfigValue)
    (hnds : (secs.map Prod.fst).Nodup)
    (hndf : ∀ sv ∈ secs, (sv.2.map Prod.fst).Nodup)
    (hs : (s, flds) ∈ secs) (hf : (k, fd) ∈ flds) (hd : fd.default_value = some d)
    (habs : cfg.get s k = none) :
    (secs.foldl (fun cfg sv => sv.2.foldl (ValidationSchema.applyFieldDefault sv.1) cfg) cfg).get s k
      = some d := by
  induction secs generalizing cfg with
  | nil => cases hs
  | cons sv rest ih =>
    simp only [List.map_cons, List.nodup_cons] at hnds
    rcases List.mem_cons.mp hs with hhead | htail
    · subst hhead
      have hinner := foldFields_value s flds cfg k fd d
        (hndf (s, flds) (List.mem_cons_self _ _)) hf hd habs
      rw [List.foldl_cons, foldSections_get_notMem rest _ s k ?_, hinner]
      exact fun hmm => hnds.1 (by simpa using hmm)
    · have hs0 : sv.1 ≠ s := by
        intro hc
        exact hnds.1 (hc ▸ (List.mem_map_of_mem Prod.fst htail))
      rw [List.foldl_cons]
      refine ih _ hnds.2 (fun sv' hm => hndf sv' (List.mem_cons_of_mem sv hm)) htail ?_
      rw [foldFields_get_otherSection sv.1 sv.2 cfg s k hs0]
      exact habs

/-- C8: `apply_defaults` never overwrites a present value, is idempotent,
and — for a schema with unique section names and unique field names per
section, as the builder API produces — inserts a field's declared default
exactly at keys absent from their section. -/
theorem C8_apply_defaults_idempotent (schema : ValidationSchema) (cfg : Config) :
    (∀ (s k : String) (v : ConfigValue), cfg.get s k = some v →
      (schema.apply_defaults cfg).get s k = some v) ∧
    schema.apply_defaults (schema.apply_defaults cfg) = schema.apply_defaults cfg ∧
    ((schema.sections.map Prod.fst).Nodup →
      (∀ sv ∈ schema.sections, (sv.2.map Prod.fst).Nodup) →
      ∀ (s k : String) (flds : List (String × FieldDefinition))
        (fd : FieldDefinition) (d : ConfigValue),
        (s, flds) ∈ schema.sections → (k, fd) ∈ flds →
        fd.default_value = some d → cfg.get s k = none →
        (schema.apply_defaults cfg).get s k = some d) := by
  refine ⟨?_, ?_, ?_⟩
  · intro s k v hv
    exact foldSections_get_present schema.sections cfg s k v hv
  · have hnoop : ∀ (secs : List (String × List (String × FieldDefinition)))
        (cfg' : Config),
        (∀ sv ∈ secs, ∀ fv ∈ sv.2, ∀ d : ConfigValue,
          fv.2.default_value = some d → (cfg'.get sv.1 fv.1).isSome) →
        secs.foldl (fun cfg sv => sv.2.foldl (ValidationSchema.applyFieldDefault sv.1) cfg) cfg'
          = cfg' := by
      intro secs
      induction secs with
      | nil =>
        intro cfg' _
        rfl
      | cons sv rest ih =>
        intro cfg' hall
        rw [List.foldl_cons,
          foldFields_noop sv.1 sv.2 cfg'
            (fun fv hm d hd => hall sv (List.mem_cons_self sv rest) fv hm d hd)]
        exact ih cfg' fun sv' hm fv hm' d hd => hall sv' (List.mem_cons_of_mem sv hm) fv hm' d hd
    refine hnoop schema.sections (schema.apply_defaults cfg) ?_
    intro sv hsv fv hfv d hd
    exact foldSections_ensures schema.sections cfg sv.1 fv.1 sv.2 fv.2 d
      (by simpa using hsv) (by simpa using hfv) hd
  · intro hnds hndf s k flds fd d hs hf hd habs
    exact foldSections_value schema.sections cfg s k flds fd d hnds hndf hs hf hd habs

/-- Witness for C8: a two-field schema with defaults over a store holding
one of the keys. The present key keeps its value, applying defaults twice
equals applying once, and the absent key receives its default. -/
theorem C8_witness :
    ((ValidationSchema.mk
        [("db", [("host", .mk .string false (some (.str "localhost")) [] none),
                 ("port", .mk .integer false (some (.int 5432)) [] none)])]
        [] true true).apply_defaults (Config.new.set "db" "port" (.int 1))).get "db" "port"
      = some (.int 1) ∧
    (ValidationSchema.mk
        [("db", [("host", .mk .string false (some (.str "localhost")) [] none),
                 ("port", .mk .integer false (some (.int 5432)) [] none)])]
        [] true true).apply_defaults
      ((ValidationSchema.mk
        [("db", [("host", .mk .string false (some (.str "localhost")) [] none),
                 ("port", .mk .integer false (some (.int 5432)) [] none)])]
        [] true true).apply_defaults (Config.new.set "db" "port" (.int 1)))
      = (ValidationSchema.mk
        [("db", [("host", .mk .string false (some (.str "localhost")) [] none),
                 ("port", .mk .integer false (some (.int 5432)) [] none)])]
        [] true true).apply_defaults (Config.new.set "db" "port" (.int 1)) ∧
    ((ValidationSchema.mk
        [("db", [("host", .mk .string false (some (.str "localhost")) [] none),
                 ("port", .mk .integer false (some (.int 5432)) [] none)])]
        [] true true).apply_defaults (Config.new.set "db" "port" (.int 1))).get "db" "host"
      = some (.str "localhost") := by
  have h := C8_apply_defaults_idempotent
    (ValidationSchema.mk
        [("db", [("host", .mk .string false (some (.str "localhost")) [] none),
                 ("port", .mk .integer false (some (.int 5432)) [] none)])]
        [] true true)
    (Config.new.set "db" "port" (.int 1))
  refine ⟨h.1 "db" "port" (.int 1) rfl, h.2.1, ?_⟩
  refine h.2.2 (by decide) ?_ "db" "host"
    [("host", .mk .string false (some (.str "localhost")) [] none),
     ("port", .mk .integer false (some (.int 5432)) [] none)]
    (.mk .string false (some (.str "localhost")) [] none) (.str "localhost")
    (List.mem_singleton.mpr rfl) (List.mem_cons_self _ _) rfl rfl
  intro sv hsv
  rcases List.mem_singleton.mp hsv with rfl
  decide

/-! Part: Claim C2 — per-field constraint checking -/

theorem validateConstraints_append_ok (cs1 cs2 : List FieldConstraint)
    (v : ConfigValue) (path : String)
    (h : ∀ c ∈ cs1, FieldConstraint.validate c v path = .ok ()) :
    validateConstraints (cs1 ++ cs2) v path = validateConstraints cs2 v path := by
  induction cs1 with
  | nil => rfl
  | cons c rest ih =>
    have hc := h c (List.mem_cons_self c rest)
    rw [List.cons_append]
    simp only [validateConstraints, hc]
    exact ih fun c' hm => h c' (List.mem_cons_of_mem c hm)

/-- C2 (amended): during validation of a present, correctly-typed field the
constraints run in declaration order, but the field's validation stops at
the first failing constraint and reports exactly that constraint's error —
it does not accumulate one error per failing constraint. -/
theorem C2_first_failing_constraint_wins (vt : ValueType) (req : Bool)
    (dv : Option ConfigValue) (desc : Option String)
    (cs1 cs2 : List FieldConstraint) (c : FieldConstraint)
    (v : ConfigValue) (path : String) (e : ValidationError)
    (hty : vt = ValueType.any ∨ ValueType.of v = vt)
    (hok : ∀ c' ∈ cs1, FieldConstraint.validate c' v path = .ok ())
    (herr : FieldConstraint.validate c v path = .error e) :
    (FieldDefinition.mk vt req dv (cs1 ++ c :: cs2) desc).validate (some v) path
      = .error e := by
  have hty' : ¬(vt ≠ ValueType.any ∧ ValueType.of v ≠ vt) := by
    rcases hty with h | h <;> simp [h]
  simp only [FieldDefinition.validate]
  rw [if_neg hty', validateConstraints_append_ok cs1 (c :: cs2) v path hok]
  simp only [validateConstraints, herr]

/-- Witness for the amended C2: a passing range constraint followed by a
failing lower-bound constraint; the field reports the failing constraint's
error. -/
theorem C2_witness :
    (FieldDefinition.mk .integer false none
        [FieldConstraint.integer (some 1) none none,
         FieldConstraint.integer (some 10) none none,
         FieldConstraint.integer none (some 3) none] none).validate
      (some (.int 5)) "srv.workers" = .error (.integerTooSmall "srv.workers" 10 5) := by
  have h := C2_first_failing_constraint_wins .integer false none none
    [FieldConstraint.integer (some 1) none none]
    [FieldConstraint.integer none (some 3) none]
    (FieldConstraint.integer (some 10) none none)
    (.int 5) "srv.workers" (.integerTooSmall "srv.workers" 10 5)
    (Or.inr rfl) ?_ ?_
  · exact h
  · intro c' hm
    rcases List.mem_singleton.mp hm with rfl
    simp [FieldConstraint.validate]
  · simp [FieldConstraint.validate]

/-- C2 counterexample: a field whose two constraints both fail produces only
the first constraint's error — `FieldDefinition::validate` returns a single
error and the schema-level pass collects exactly one entry for the field,
not one entry per failing constraint. -/
theorem C2_counterexample :
    FieldConstraint.validate (.integer (some 10) none none) (.int 5) "srv.workers"
      = .error (.integerTooSmall "srv.workers" 10 5) ∧
    FieldConstraint.validate (.integer none (some 3) none) (.int 5) "srv.workers"
      = .error (.integerTooLarge "srv.workers" 3 5) ∧
    FieldDefinition.validate
      (.mk .integer false none
        [.integer (some 10) none none, .integer none (some 3) none] none)
      (some (.int 5)) "srv.workers"
      = .error (.integerTooSmall "srv.workers" 10 5) ∧
    ValidationSchema.collect_errors
      (ValidationSchema.mk
        [("srv", [("workers", .mk .integer false none
            [.integer (some 10) none none, .integer none (some 3) none] none)])]
        [] true true)
      { values := [("srv", [("workers", .int 5)])], format := .ini }
      = [.integerTooSmall "srv.workers" 10 5] := by
  refine ⟨?_, ?_, ?_, ?_⟩
  · simp [FieldConstraint.validate]
  · simp [FieldConstraint.validate]
  · simp [FieldDefinition.validate, validateConstraints, FieldConstraint.validate,
      FieldDefinition.value_type, FieldDefinition.constraints, ValueType.of]
  · simp [ValidationSchema.collect_errors, ValidationSchema.requiredSectionErrors,
      ValidationSchema.sectionErrors, AListC.get, AListC.containsKey,
      FieldDefinition.validate, validateConstraints, FieldConstraint.validate,
      FieldDefinition.value_type, FieldDefinition.constraints, ValueType.of]

/-! Part: Claim C9 — error aggregation in schema validation -/

/-- C9: `validate` succeeds exactly when the accumulated error collection is
empty, and otherwise returns the whole ordered collection; concretely, a
store missing two required fields and violating one bound constraint yields
a `ValidationErrors` with exactly those three entries, each carrying the
dotted `section.key` path. -/
theorem C9_validate_aggregates_all_errors :
    (∀ (schema : ValidationSchema) (cfg : Config),
      (schema.validate cfg = .ok () ↔ ValidationSchema.collect_errors schema cfg = []) ∧
      ∀ es, schema.validate cfg = .error es →
        es = ValidationSchema.collect_errors schema cfg ∧ es ≠ []) ∧
    (((ValidationSchema.new.field "srv" "host" (.mk .string true none [] none)).field
        "srv" "port" (.mk .integer true none [] none)).field
        "srv" "workers" (.mk .integer false none [.integer (some 10) none none] none)).validate
      (Config.new.set "srv" "workers" (.int 5))
      = .error
          [.missingField "srv.host", .missingField "srv.port",
           .integerTooSmall "srv.workers" 10 5] := by
  constructor
  · intro schema cfg
    constructor
    · unfold ValidationSchema.validate
      by_cases h : (ValidationSchema.collect_errors schema cfg).isEmpty
      · simp [h, List.isEmpty_iff.mp h]
      · simp only [h, if_false]
        constructor
        · intro hc
          cases hc
        · intro hc
          rw [hc] at h
          simp at h
    · intro es hes
      unfold ValidationSchema.validate at hes
      by_cases h : (ValidationSchema.collect_errors schema cfg).isEmpty
      · rw [if_pos h] at hes
        cases hes
      · rw [if_neg h] at hes
        cases hes
        exact ⟨rfl, fun hc => h (by simp [hc])⟩
  · simp [ValidationSchema.validate, ValidationSchema.collect_errors,
      ValidationSchema.requiredSectionErrors, ValidationSchema.sectionErrors,
      ValidationSchema.new, ValidationSchema.field, ValidationSchema.section_,
      AListC.get, AListC.insert, AListC.containsKey, Config.new, Config.set,
      FieldDefinition.validate, validateConstraints, FieldConstraint.validate,
      FieldDefinition.value_type, FieldDefinition.constraints,
      FieldDefinition.required, ValueType.of]

/-- Witness for C9: the three-error collection of the concrete scenario is
exactly what `validate` returns, and it is non-empty. -/
theorem C9_witness :
    ValidationSchema.collect_errors
      (((ValidationSchema.new.field "srv" "host" (.mk .string true none [] none)).field
          "srv" "port" (.mk .integer true none [] none)).field
          "srv" "workers" (.mk .integer false none [.integer (some 10) none none] none))
      (Config.new.set "srv" "workers" (.int 5))
      = [.missingField "srv.host", .missingField "srv.port",
         .integerTooSmall "srv.workers" 10 5] ∧
    ([ValidationError.missingField "srv.host", .missingField "srv.port",
      .integerTooSmall "srv.workers" 10 5] : List ValidationError) ≠ [] := by
  have h := (C9_validate_aggregates_all_errors.1
    (((ValidationSchema.new.field "srv" "host" (.mk .string true none [] none)).field
        "srv" "port" (.mk .integer true none [] none)).field
        "srv" "workers" (.mk .integer false none [.integer (some 10) none none] none))
    (Config.new.set "srv" "workers" (.int 5))).2
    [.missingField "srv.host", .missingField "srv.port",
     .integerTooSmall "srv.workers" 10 5]
    C9_validate_aggregates_all_errors.2
  exact ⟨h.1.symm, h.2⟩

/-! Part: Claim C5 — value classification priority -/

/-- The four spellings `parse_value` maps to `Boolean(true)` (lowercased). -/
abbrev boolTrueWord (v : String) : Prop :=
  toLowercase v = "true" ∨ toLowercase v = "yes" ∨ toLowercase v = "on" ∨
    toLowercase v = "1"

/-- The four spellings `parse_value` maps to `Boolean(false)` (lowercased). -/
abbrev boolFalseWord (v : String) : Prop :=
  toLowercase v = "false" ∨ toLowercase v = "no" ∨ toLowercase v = "off" ∨
    toLowercase v = "0"

theorem unquote_totalizes (s : String) (r : String)
    (h : unquoteChecked s = some r) : unquote s = r := by
  unfold unquoteChecked at h
  unfold unquote
  by_cases hq : is_quoted s = true
  · rw [if_pos hq] at h
    rw [if_pos hq]
    by_cases hl : 2 ≤ s.data.length
    · rw [if_pos hl] at h
      exact Option.some.inj h
    · rw [if_neg hl] at h
      cases h
  · have hq' : is_quoted s = false := by
      rcases hb : is_quoted s
      · rfl
      · exact absurd hb hq
    rw [hq'] at h
    rw [hq']
    simp only [Bool.false_eq_true, if_false] at h ⊢
    exact Option.some.inj h

/-- C5 counterexample: the line `k = "` reaches the classifier with the
one-character value `"`; `is_quoted` accepts it, yet the source's slice
`&s[1..s.len()-1]` has its end (0) before its start (1) and the program
panics instead of classifying the value — the claim's universally
quantified quoted branch fails at this reachable input. -/
theorem C5_counterexample :
    strip_comments "k = \"" = "k = \"" ∧
    matchIncludeLine "k = \"" = none ∧
    matchSectionLine "k = \"" = none ∧
    matchKVLine "k = \"" = some ("k", "\"") ∧
    is_quoted "\"" = true ∧
    ("\"" : String).data.length < 2 ∧
    unquoteChecked "\"" = none := by
  exact ⟨rfl, rfl, rfl, rfl, rfl, by decide, rfl⟩

/-- C5 (amended): the INI classifier tries, in exactly this order:
(1) double-quoted and at least two characters long (the valid-slice
condition; on the reachable one-character value `"` the source panics,
see `C5_counterexample`) → Text with quotes stripped and escapes
processed; (2) case-insensitive boolean word → Boolean; (3) 64-bit signed
integer → Integer; (4) 64-bit float → Float; (5) otherwise Text verbatim.
In particular the line `key = "123"` parses to Text "123" and `as_integer`
on it is absent. -/
theorem C5_parse_value_priority :
    (∀ v : String,
      (is_quoted v = true →
        ∀ s, unquoteChecked v = some s → parse_value v = .str s) ∧
      (is_quoted v = false →
        (boolTrueWord v → parse_value v = .bool true) ∧
        (¬boolTrueWord v → boolFalseWord v → parse_value v = .bool false) ∧
        (¬boolTrueWord v → ¬boolFalseWord v →
          (∀ i, parseI64 v = some i → parse_value v = .int i) ∧
          (parseI64 v = none →
            (∀ f, parseF64 v = some f → parse_value v = .float f) ∧
            (parseF64 v = none → parse_value v = .str v))))) ∧
    parse_ini ⟨[]⟩ 0 Config.new ["key = \"123\""] "/a.conf"
      = .ok { values := [("default", [("key", ConfigValue.str "123")])],
              format := .unknown } ∧
    (ConfigValue.str "123").as_integer = none ∧
    unquoteChecked "\"123\"" = some "123" := by
  refine ⟨?_, by rfl, rfl, by rfl⟩
  intro v
  constructor
  · intro hq s hs
    rw [← unquote_totalizes v s hs]
    simp [parse_value, hq]
  · intro hq
    refine ⟨?_, ?_, ?_⟩
    · intro hw
      simp [parse_value, hq, boolTrueWord] at hw ⊢
      rcases hw with h | h | h | h <;> simp [h]
    · intro hnw hw
      simp only [boolTrueWord, not_or] at hnw
      simp [parse_value, hq, boolFalseWord, hnw.1, hnw.2.1, hnw.2.2.1, hnw.2.2.2] at hw ⊢
      rcases hw with h | h | h | h <;> simp [h]
    · intro hnw hnf
      simp only [boolTrueWord, not_or] at hnw
      simp only [boolFalseWord, not_or] at hnf
      constructor
      · intro i hi
        simp [parse_value, hq, hnw.1, hnw.2.1, hnw.2.2.1, hnw.2.2.2,
          hnf.1, hnf.2.1, hnf.2.2.1, hnf.2.2.2, hi]
      · intro hi
        constructor
        · intro f hf
          simp [parse_value, hq, hnw.1, hnw.2.1, hnw.2.2.1, hnw.2.2.2,
            hnf.1, hnf.2.1, hnf.2.2.1, hnf.2.2.2, hi, hf]
        · intro hf
          simp [parse_value, hq, hnw.1, hnw.2.1, hnw.2.2.1, hnw.2.2.2,
            hnf.1, hnf.2.1, hnf.2.2.1, hnf.2.2.2, hi, hf]

/-- Witness for C5, exercising each classification step on a concrete
input: a quoted number stays Text, `YES` is a Boolean, `42` an Integer,
`2.5` a Float and `hello` verbatim Text. -/
theorem C5_witness :
    parse_value "\"123\"" = .str "123" ∧
    parse_value "YES" = .bool true ∧
    parse_value "42" = .int 42 ∧
    parse_value "2.5" = .float (f64OfParts false 25 1 0) ∧
    parse_value "hello" = .str "hello" := by
  have h1 := (C5_parse_value_priority.1 "\"123\"").1 rfl "123"
    C5_parse_value_priority.2.2.2
  have h2 := ((C5_parse_value_priority.1 "YES").2 rfl).1 (Or.inr (Or.inl rfl))
  have h3 := (((C5_parse_value_priority.1 "42").2 rfl).2.2 (by decide) (by decide)).1
    42 rfl
  have h4 := ((((C5_parse_value_priority.1 "2.5").2 rfl).2.2 (by decide) (by decide)).2
    rfl).1 (f64OfParts false 25 1 0) rfl
  have h5 := ((((C5_parse_value_priority.1 "hello").2 rfl).2.2 (by decide) (by decide)).2
    rfl).2 rfl
  exact ⟨h1, h2, h3, h4, h5⟩

/-! Part: Claim C6 — comment stripping -/

/-- The comment-stripping grammar the spec sentence for C6 describes, as a
refinement comparison: identical to `stripLoop` except that inside a quoted
span a `\"` escape stays inside the span. The source's `strip_comments` has
no escape handling; this definition exists only to witness the divergence. -/
def stripLoopSpec : List Char → Bool → List Char
  | [], _ => []
  | '\\' :: '"' :: rest, true => '\\' :: '"' :: stripLoopSpec rest true
  | c :: rest, inQ =>
    if c = '"' then c :: stripLoopSpec rest (!inQ)
    else if c = '#' ∧ inQ = false then []
    else c :: stripLoopSpec rest inQ

/-- Escape-aware comment stripping, modelled from the spec's words for C6. -/
def strip_comments_spec (line : String) : String :=
  String.mk (rtrimL (stripLoopSpec line.data false))

/-- Scanner deciding that a character list contains no `#` outside its
naive (toggle-per-quote, escape-blind) double-quote spans, starting from
quote state `q` — the spans `strip_comments` actually tracks. -/
def noUnquotedHash : List Char → Bool → Bool
  | [], _ => true
  | c :: rest, q =>
    if c = '"' then noUnquotedHash rest (!q)
    else if c = '#' ∧ q = false then false
    else noUnquotedHash rest q

/-- Quote state after scanning a list from state `q`: flipped once per
double quote. -/
def quoteFlip (a : List Char) (q : Bool) : Bool :=
  if a.count '"' % 2 = 0 then q else !q

theorem stripLoop_of_noHash (cs : List Char) (q : Bool)
    (h : noUnquotedHash cs q = true) : stripLoop cs q = cs := by
  induction cs generalizing q with
  | nil => rfl
  | cons c rest ih =>
    by_cases hq : c = '"'
    · rw [noUnquotedHash] at h
      rw [stripLoop, if_pos hq, ih (!q) (by rwa [if_pos hq] at h)]
    · by_cases hh : c = '#' ∧ q = false
      · rw [noUnquotedHash, if_neg hq, if_pos hh] at h
        cases h
      · rw [noUnquotedHash, if_neg hq, if_neg hh] at h
        rw [stripLoop, if_neg hq, if_neg hh, ih q h]

theorem stripLoop_hash (a b : List Char) (q : Bool)
    (h1 : noUnquotedHash a q = true) (h2 : quoteFlip a q = false) :
    stripLoop (a ++ '#' :: b) q = a := by
  induction a generalizing q with
  | nil =>
    have hq : q = false := by
      unfold quoteFlip at h2
      simpa using h2
    subst hq
    rw [List.nil_append, stripLoop, if_neg (by decide), if_pos (by simp)]
  | cons c rest ih =>
    by_cases hq : c = '"'
    · rw [noUnquotedHash, if_pos hq] at h1
      have h2' : quoteFlip rest (!q) = false := by
        unfold quoteFlip at h2 ⊢
        subst hq
        rcases Nat.even_or_odd (rest.count '"') with he | ho
        · have : rest.count '"' % 2 = 0 := Nat.even_iff.mp he
          have hc : (('"' :: rest).count '"') % 2 = 1 := by
            simp [List.count_cons, Nat.add_mod, this]
          rw [if_pos this]
          rw [hc] at h2
          simpa using h2
        · have : rest.count '"' % 2 = 1 := Nat.odd_iff.mp ho
          have hc : (('"' :: rest).count '"') % 2 = 0 := by
            simp [List.count_cons, Nat.add_mod, this]
          rw [if_neg (by omega)]
          rw [hc] at h2
          simpa using h2
      rw [List.cons_append, stripLoop, if_pos hq, ih (!q) h1 h2']
    · by_cases hh : c = '#' ∧ q = false
      · rw [noUnquotedHash, if_neg hq, if_pos hh] at h1
        cases h1
      · rw [noUnquotedHash, if_neg hq, if_neg hh] at h1
        have h2' : quoteFlip rest q = false := by
          unfold quoteFlip at h2 ⊢
          have : (c :: rest).count '"' = rest.count '"' := by
            simp [List.count_cons, hq]
          rwa [this] at h2
        rw [List.cons_append, stripLoop, if_neg hq, if_neg hh, ih q h1 h2']

/-- C6 (amended): `strip_comments` tracks double-quote spans by toggling at
every `"` with no `\"` escape handling; it keeps a line whole (up to
trailing-whitespace trimming) when every `#` lies inside such a naive span,
and discards from the first `#` at even quote parity onward. The spec's
concrete example holds: `key = "a#b" # trailing` parses to Text "a#b". -/
theorem C6_strip_comments_naive_quote_spans :
    (∀ cs : List Char, noUnquotedHash cs false = true →
      strip_comments (String.mk cs) = String.mk (rtrimL cs)) ∧
    (∀ a b : List Char, noUnquotedHash a false = true → a.count '"' % 2 = 0 →
      strip_comments (String.mk (a ++ '#' :: b)) = String.mk (rtrimL a)) ∧
    parse_ini ⟨[]⟩ 0 Config.new ["key = \"a#b\" # trailing"] "/a.conf"
      = .ok { values := [("default", [("key", ConfigValue.str "a#b")])],
              format := .unknown } := by
  refine ⟨?_, ?_, by rfl⟩
  · intro cs h
    unfold strip_comments
    rw [String.data]  -- expose the literal character list
    rw [stripLoop_of_noHash cs false h]
  · intro a b h hp
    unfold strip_comments
    rw [String.data]
    rw [stripLoop_hash a b false h (by unfold quoteFlip; simp [hp])]

/-- Witness for the amended C6 on concrete lines: a `#` inside a naive
quote span survives, and a later unquoted `#` truncates. -/
theorem C6_witness :
    strip_comments "k = \"a#b\"" = "k = \"a#b\"" ∧
    strip_comments "k = 1 # c" = "k = 1" := by
  constructor
  · have h := C6_strip_comments_naive_quote_spans.1 "k = \"a#b\"".data (by decide)
    simpa using h
  · have h := C6_strip_comments_naive_quote_spans.2.1
      "k = 1 ".data (' ' :: "c".data) (by decide) (by decide)
    simpa using h

/-- C6 counterexample: in the line `k = "a\"#b\"c"` the `#` sits inside the
double-quoted span under the spec's escape-aware grammar (the preceding
`\"` is an escape), so the claim demands it be kept literal; the source's
`strip_comments` treats the escaped quote as a span toggle and discards
everything from the `#` on. -/
theorem C6_counterexample :
    strip_comments "k = \"a\\\"#b\\\"c\"" = "k = \"a\\\"" ∧
    strip_comments_spec "k = \"a\\\"#b\\\"c\"" = "k = \"a\\\"#b\\\"c\"" ∧
    ("k = \"a\\\"" : String) ≠ "k = \"a\\\"#b\\\"c\"" := by
  refine ⟨rfl, rfl, by decide⟩

/-! Part: Claim C7 — format detection from content -/

/-- C7 (amended): detection reads only the first line. Without the
`#!config/` prefix (or with no first line at all) the format defaults to
INI. With the prefix, the inspected remainder is the first line with every
leading repetition of `#!config/` removed (Rust `trim_start_matches` strips
the pattern repeatedly) and then trimmed; a case-insensitive format name
(`ini`, `toml`, `yaml`/`yml`, `json`) selects the format and anything else
makes `load_from_file` fail with an unsupported-format error carrying that
remainder. -/
theorem C7_detect_format_first_line :
    (∀ (l : String) (ls ls' : List String),
      detect_format_from_content (l :: ls) = detect_format_from_content (l :: ls')) ∧
    detect_format_from_content [] = .ok .ini ∧
    (∀ (l : String) (ls : List String), hasShebang l = false →
      detect_format_from_content (l :: ls) = .ok .ini) ∧
    (∀ (l : String) (ls : List String), hasShebang l = true →
      detect_format_from_content (l :: ls) =
        (if ConfigFormat.fromStr (shebangRemainder l) = .unknown then
          .error (.unsupportedFormat (shebangRemainder l))
        else .ok (ConfigFormat.fromStr (shebangRemainder l)))) ∧
    (∀ s : String, ConfigFormat.fromStr s =
      (if toLowercase s = "ini" then .ini
       else if toLowercase s = "toml" then .toml
       else if toLowercase s = "yaml" ∨ toLowercase s = "yml" then .yaml
       else if toLowercase s = "json" then .json
       else .unknown)) ∧
    (∀ (fs : FS) (fuel : Nat) (cfg : Config) (path : String) (content : List String),
      fs.read path = some content →
      hasShebang (content.head?.getD "") = true →
      ConfigFormat.fromStr (shebangRemainder (content.head?.getD "")) = .unknown →
      load_from_file fs fuel cfg path
        = .error (.unsupportedFormat (shebangRemainder (content.head?.getD "")))) := by
  have hdet : ∀ (content : List String),
      hasShebang (content.head?.getD "") = true →
      ConfigFormat.fromStr (shebangRemainder (content.head?.getD "")) = .unknown →
      detect_format_from_content content
        = .error (.unsupportedFormat (shebangRemainder (content.head?.getD ""))) := by
    intro content hsheb hunk
    cases content with
    | nil => cases hsheb
    | cons l ls =>
      simp only [List.head?_cons, Option.getD_some] at hsheb hunk ⊢
      simp [detect_format_from_content, hsheb, hunk]
  refine ⟨fun l ls ls' => rfl, rfl, ?_, ?_, fun s => rfl, ?_⟩
  · intro l ls h
    simp [detect_format_from_content, h]
  · intro l ls h
    simp [detect_format_from_content, h]
  · intro fs fuel cfg path content hread hsheb hunk
    simp [load_from_file, hread, hdet content hsheb hunk]

/-- Witness for the amended C7 on concrete inputs: a plain line defaults to
INI; an unknown shebang name makes a load fail with the unsupported-format
error; `#!config/TOML` selects TOML case-insensitively. -/
theorem C7_witness :
    detect_format_from_content ["key = 1"] = .ok .ini ∧
    load_from_file ⟨[("/app.conf", ["#!config/xml", "key = 1"])]⟩ 3 Config.new "/app.conf"
      = .error (.unsupportedFormat "xml") ∧
    detect_format_from_content ["#!config/TOML"] = .ok .toml := by
  refine ⟨C7_detect_format_first_line.2.2.1 "key = 1" [] rfl, ?_, ?_⟩
  · exact C7_detect_format_first_line.2.2.2.2.2 ⟨[("/app.conf", ["#!config/xml", "key = 1"])]⟩
      3 Config.new "/app.conf" ["#!config/xml", "key = 1"] rfl rfl rfl
  · exact (C7_detect_format_first_line.2.2.2.1 "#!config/TOML" [] rfl).trans (by rfl)

/-- C7 counterexample: on the first line `#!config/#!config/ini` the
remainder after the literal prefix is `#!config/ini`, which is not a
supported format name, so the claim demands an unsupported-format failure;
the source strips the prefix repeatedly, detects INI, and the load
succeeds. -/
theorem C7_counterexample :
    ConfigFormat.fromStr (String.mk (trimL ("#!config/#!config/ini".data.drop 9)))
      = .unknown ∧
    detect_format_from_content ["#!config/#!config/ini"] = .ok .ini ∧
    load_from_file ⟨[("/app.conf", ["#!config/#!config/ini"])]⟩ 1 Config.new "/app.conf"
      = .ok { values := [], format := .ini } := by
  exact ⟨rfl, rfl, rfl⟩

/-! Part: Claim C1 — include resolution and format dispatch -/

/-- C1 (amended): the Include Resolver does not dispatch every resolved file
to the converter of that file's own format. `include_content` — the
per-file entry point every glob-resolved include goes through — detects the
file's format but only ever runs the INI parser: INI (and unrecognised)
content is parsed as INI into the same store the caller is building, while
content detected as TOML, YAML or JSON makes the include fail with an
unsupported-format error. A literal (non-glob) include reached from the INI
parser is always re-parsed as INI, with no detection on the included file's
content at all. -/
theorem C1_include_content_dispatch :
    (∀ (fs : FS) (fuel : Nat) (cfg : Config) (content : List String) (path : String),
      (detectFormatInclude content = .ini ∨ detectFormatInclude content = .unknown →
        include_content fs fuel cfg content path = parse_ini fs fuel cfg content path) ∧
      (detectFormatInclude content = .toml →
        include_content fs fuel cfg content path = .error (.unsupportedFormat "TOML")) ∧
      (detectFormatInclude content = .yaml →
        include_content fs fuel cfg content path = .error (.unsupportedFormat "YAML")) ∧
      (detectFormatInclude content = .json →
        include_content fs fuel cfg content path = .error (.unsupportedFormat "JSON"))) ∧
    (∀ (fs : FS) (fuel : Nat) (cfg : Config) (include_path base_path : String),
      include_path.data.contains '*' = false →
      process_include fs (fuel + 1) cfg include_path base_path =
        (match fs.read (resolve_path base_path include_path) with
         | some content =>
           parse_ini fs fuel cfg content (resolve_path base_path include_path)
         | none =>
           .error (.includeError
             ("Included file not found: " ++ resolve_path base_path include_path)))) := by
  constructor
  · intro fs fuel cfg content path
    refine ⟨?_, ?_, ?_, ?_⟩
    · rintro (h | h) <;>
        simp [include_content, include_contentH, parse_ini, h]
    · intro h
      simp [include_content, include_contentH, h]
    · intro h
      simp [include_content, include_contentH, h]
    · intro h
      simp [include_content, include_contentH, h]
  · intro fs fuel cfg include_path base_path h
    simp only [process_include, h, Bool.false_eq_true, if_false]
    rcases fs.read (resolve_path base_path include_path) with _ | content <;>
      simp [parse_ini]

/-- Witness for the amended C1: INI-detected content is merged into the
very store passed in, and a literal include from INI is parsed as INI. -/
theorem C1_witness :
    include_content ⟨[]⟩ 1 (Config.new.set "s" "a" (.int 2)) ["[s]", "b = 3"] "/x.conf"
      = .ok { values := [("s", [("a", ConfigValue.int 2), ("b", ConfigValue.int 3)])],
              format := .unknown } ∧
    process_include ⟨[("/inc.conf", ["k = 5"])]⟩ 1 Config.new "inc.conf" "/app.conf"
      = .ok { values := [("default", [("k", ConfigValue.int 5)])],
              format := .unknown } := by
  have h1 := (C1_include_content_dispatch.1 ⟨[]⟩ 1 (Config.new.set "s" "a" (.int 2))
    ["[s]", "b = 3"] "/x.conf").1 (Or.inl rfl)
  have h2 := C1_include_content_dispatch.2 ⟨[("/inc.conf", ["k = 5"])]⟩ 0 Config.new
    "inc.conf" "/app.conf" rfl
  exact ⟨h1.trans (by rfl), h2.trans (by rfl)⟩

/-- C1 counterexample: a TOML file resolved by a glob include (from an INI
main file) is detected as TOML but is not dispatched to the TOML converter
and its keys are never merged — the whole load aborts with an
unsupported-format error. -/
theorem C1_counterexample :
    detectFormatInclude ["#!config/toml", "title = \"x\""] = .toml ∧
    include_content ⟨[("/conf.d/a.toml", ["#!config/toml", "title = \"x\""])]⟩ 3
      Config.new ["#!config/toml", "title = \"x\""] "/conf.d/a.toml"
      = .error (.unsupportedFormat "TOML") ∧
    load_from_file
      ⟨[("/app.conf", ["include = conf.d/*.toml"]),
        ("/conf.d/a.toml", ["#!config/toml", "title = \"x\""])]⟩ 3
      Config.new "/app.conf"
      = .error (.unsupportedFormat "TOML") := by
  exact ⟨rfl, rfl, rfl⟩

/-! Part: Claim C3 — merge and override through includes -/

/-- Characters that cannot disturb the line grammar when used inside an
unquoted value token: no whitespace, comment, quote or separator
characters. -/
def safeTokenChar (c : Char) : Bool :=
  !c.isWhitespace && c != '#' && c != '"' && c != '='

/-- A nonempty value token of undisturbing characters: such a token passes
through comment stripping and the key/value split verbatim. -/
def safeToken (v : String) : Bool :=
  !v.data.isEmpty && v.data.all safeTokenChar

theorem safeToken_ne (v : String) (h : safeToken v = true) : v.data ≠ [] := by
  unfold safeToken at h
  rcases hv : v.data with _ | ⟨c, cs⟩
  · rw [hv] at h
    cases h
  · exact fun hcon => by cases hcon

theorem safeToken_mem (v : String) (h : safeToken v = true) :
    ∀ c ∈ v.data, c.isWhitespace = false ∧ c ≠ '#' ∧ c ≠ '"' ∧ c ≠ '=' := by
  unfold safeToken at h
  intro c hcm
  have hall := List.all_eq_true.mp (Bool.and_eq_true_iff.mp h).2 c hcm
  unfold safeTokenChar at hall
  simp only [Bool.and_eq_true, Bool.not_eq_true', bne_iff_ne, ne_eq] at hall
  exact ⟨hall.1.1.1, hall.1.1.2, hall.1.2, hall.2⟩

theorem dropWhile_of_all_false {p : Char → Bool} (l : List Char)
    (h : ∀ x ∈ l, p x = false) : l.dropWhile p = l := by
  induction l with
  | nil => rfl
  | cons c rest ih =>
    rw [List.dropWhile_cons, h c (List.mem_cons_self c rest)]
    simp

theorem takeWhile_append_of_all {p : Char → Bool} (l1 l2 : List Char)
    (h : ∀ x ∈ l1, p x = true) :
    (l1 ++ l2).takeWhile p = l1 ++ l2.takeWhile p := by
  induction l1 with
  | nil => rfl
  | cons c rest ih =>
    rw [List.cons_append, List.takeWhile_cons, h c (List.mem_cons_self c rest)]
    simp only [if_true, List.cons_append, List.cons.injEq, true_and]
    exact ih fun x hx => h x (List.mem_cons_of_mem c hx)

theorem dropWhile_append_of_all {p : Char → Bool} (l1 l2 : List Char)
    (h : ∀ x ∈ l1, p x = true) :
    (l1 ++ l2).dropWhile p = l2.dropWhile p := by
  induction l1 with
  | nil => rfl
  | cons c rest ih =>
    rw [List.cons_append, List.dropWhile_cons, h c (List.mem_cons_self c rest)]
    simp only [if_true]
    exact ih fun x hx => h x (List.mem_cons_of_mem c hx)

theorem dropWhile_append_singleton {p : Char → Bool} (l : List Char) (c : Char)
    (hc : p c = false) : (l ++ [c]).dropWhile p = l.dropWhile p ++ [c] := by
  induction l with
  | nil => simp [List.dropWhile_cons, hc]
  | cons a rest ih =>
    by_cases ha : p a = true
    · rw [List.cons_append, List.dropWhile_cons, ha, List.dropWhile_cons, ha]
      simpa using ih
    · simp only [Bool.not_eq_true] at ha
      rw [List.cons_append, List.dropWhile_cons, ha, List.dropWhile_cons, ha]
      simp

theorem rtrimL_cons_nonws (c : Char) (cs : List Char)
    (h : c.isWhitespace = false) : rtrimL (c :: cs) = c :: rtrimL cs := by
  unfold rtrimL
  rw [show (c :: cs).reverse = cs.reverse ++ [c] from by simp,
    dropWhile_append_singleton cs.reverse c h]
  simp

theorem rtrimL_append_token (l vd : List Char) (hne : vd ≠ [])
    (hall : ∀ x ∈ vd, x.isWhitespace = false) : rtrimL (l ++ vd) = l ++ vd := by
  rcases hrev : vd.reverse with _ | ⟨d, ds⟩
  · exact absurd (by simpa using congrArg List.reverse hrev) hne
  · have hdm : d ∈ vd := by
      rw [← List.mem_reverse, hrev]
      exact List.mem_cons_self d ds
    unfold rtrimL
    rw [List.reverse_append, hrev, List.cons_append, List.dropWhile_cons, hall d hdm]
    simp only [Bool.false_eq_true, if_false]
    rw [← List.cons_append, show d :: ds = vd.reverse from hrev.symm]
    simp

theorem stripLoop_id (cs : List Char)
    (h : ∀ x ∈ cs, x ≠ '#' ∧ x ≠ '"') : stripLoop cs false = cs := by
  induction cs with
  | nil => rfl
  | cons c rest ih =>
    have hc := h c (List.mem_cons_self c rest)
    rw [stripLoop, if_neg hc.2, if_neg (by simp [hc.1]),
      ih fun x hx => h x (List.mem_cons_of_mem c hx)]

theorem matchIncludeLine_none_head (s : String) (c : Char) (cs : List Char)
    (hdd : s.data = c :: cs) (hws : c.isWhitespace = false) (hi : c ≠ 'i') :
    matchIncludeLine s = none := by
  have hpre : ("include".data.isPrefixOf (c :: cs)) = false := by
    have hbe : ('i' == c) = false := beq_eq_false_iff_ne.mpr fun hh => hi hh.symm
    rw [show "include".data = 'i' :: "nclude".data from rfl,
      show List.isPrefixOf ('i' :: "nclude".data) (c :: cs)
          = (('i' == c) && List.isPrefixOf "nclude".data cs) from rfl,
      hbe, Bool.false_and]
  unfold matchIncludeLine ltrimL
  rw [hdd, List.dropWhile_cons, hws]
  simp [hpre]

theorem matchSectionLine_none_head (s : String) (c : Char) (cs : List Char)
    (hdd : s.data = c :: cs) (hws : c.isWhitespace = false) (hb : c ≠ '[') :
    matchSectionLine s = none := by
  unfold matchSectionLine trimL ltrimL
  rw [hdd, List.dropWhile_cons, hws]
  simp only [Bool.false_eq_true, if_false]
  rw [rtrimL_cons_nonws c cs hws]
  split
  · next rest heq =>
    injection heq with h1 h2
    exact absurd h1 hb
  · rfl

theorem matchKVLine_token (key v : String)
    (hkne : key.data ≠ [])
    (hk : ∀ x ∈ key.data, x.isWhitespace = false ∧ x ≠ '#' ∧ x ≠ '"' ∧ x ≠ '=')
    (hv : safeToken v = true) :
    matchKVLine (key ++ " = " ++ v) = some (key, v) := by
  have hdata : (key ++ " = " ++ v).data = key.data ++ (' ' :: '=' :: ' ' :: v.data) := by
    show (key.data ++ (' ' :: '=' :: ' ' :: List.nil)) ++ v.data = _
    rw [List.append_assoc]
    rfl
  have hkeq : ∀ x ∈ key.data, (x != '=') = true := fun x hx => by
    simp only [bne_iff_ne, ne_eq]
    exact (hk x hx).2.2.2
  have hkws : ∀ x ∈ key.data, x.isWhitespace = false := fun x hx => (hk x hx).1
  have hvne := safeToken_ne v hv
  have hvmem := safeToken_mem v hv
  rcases hkd : key.data with _ | ⟨kc, kcs⟩
  · exact absurd hkd hkne
  unfold matchKVLine
  rw [hdata]
  rw [if_pos (List.elem_eq_true_of_mem
      (List.mem_append_right key.data (by simp)))]
  rw [takeWhile_append_of_all key.data _ hkeq,
    dropWhile_append_of_all key.data _ hkeq]
  rw [show List.takeWhile (fun x => x != '=') (' ' :: '=' :: ' ' :: v.data)
        = [' '] from by
      rw [List.takeWhile_cons, show ((' ' : Char) != '=') = true from rfl,
        List.takeWhile_cons, show (('=' : Char) != '=') = false from rfl]
      simp]
  rw [show List.dropWhile (fun x => x != '=') (' ' :: '=' :: ' ' :: v.data)
        = '=' :: ' ' :: v.data from by
      rw [List.dropWhile_cons, show ((' ' : Char) != '=') = true from rfl,
        List.dropWhile_cons, show (('=' : Char) != '=') = false from rfl]
      simp]
  have hkeypart : trimL (key.data ++ [' ']) = key.data := by
    unfold trimL ltrimL
    rw [hkd, List.cons_append, List.dropWhile_cons,
      (hk kc (by rw [hkd]; exact List.mem_cons_self kc kcs)).1]
    simp only [Bool.false_eq_true, if_false]
    rw [← List.cons_append, ← hkd]
    unfold rtrimL
    rw [List.reverse_append, show ([' '] : List Char).reverse = [' '] from rfl,
      List.singleton_append, List.dropWhile_cons,
      show (' ' : Char).isWhitespace = true from rfl]
    simp only [if_true]
    rw [dropWhile_of_all_false key.data.reverse fun x hx =>
      hkws x (List.mem_reverse.mp hx)]
    simp
  have hvalpart : trimL (' ' :: v.data) = v.data := by
    unfold trimL ltrimL
    rw [List.dropWhile_cons, show (' ' : Char).isWhitespace = true from rfl]
    simp only [if_true]
    rw [dropWhile_of_all_false v.data fun x hx => (hvmem x hx).1]
    exact rtrimL_append_token [] v.data hvne fun x hx => (hvmem x hx).1
  simp only [List.drop_succ_cons, List.drop_zero]
  rw [hkeypart, hvalpart]

/-- A key/value line `key ++ " = " ++ v` with a grammar-safe key and value
token is consumed by one step of the line loop as `set current_section key
(parse_value v)`. -/
theorem parseIniLines_cons_kv (H : IncludeHandler) (cfg : Config) (sec : String)
    (key v : String) (rest : List String) (path : String)
    (hkne : key.data ≠ [])
    (hk : ∀ x ∈ key.data, x.isWhitespace = false ∧ x ≠ '#' ∧ x ≠ '"' ∧ x ≠ '=')
    (hki : key.data.head? ≠ some 'i') (hkb : key.data.head? ≠ some '[')
    (hv : safeToken v = true) :
    parseIniLinesH H cfg sec ((key ++ " = " ++ v) :: rest) path
      = parseIniLinesH H (cfg.set sec key (parse_value v)) sec rest path := by
  have hdata : (key ++ " = " ++ v).data = key.data ++ (' ' :: '=' :: ' ' :: v.data) := by
    show (key.data ++ (' ' :: '=' :: ' ' :: List.nil)) ++ v.data = _
    rw [List.append_assoc]
    rfl
  rcases hkd : key.data with _ | ⟨kc, kcs⟩
  · exact absurd hkd hkne
  have hkc := hk kc (by rw [hkd]; simp)
  have hline : (key ++ " = " ++ v).data = kc :: (kcs ++ (' ' :: '=' :: ' ' :: v.data)) := by
    rw [hdata, hkd]
    rfl
  have hvne := safeToken_ne v hv
  have hvmem := safeToken_mem v hv
  have hchars : ∀ x ∈ key.data ++ (' ' :: '=' :: ' ' :: v.data), x ≠ '#' ∧ x ≠ '"' := by
    intro x hx
    rcases List.mem_append.mp hx with hx1 | hx2
    · exact ⟨(hk x hx1).2.1, (hk x hx1).2.2.1⟩
    · simp only [List.mem_cons] at hx2
      rcases hx2 with rfl | rfl | rfl | hx4
      · exact ⟨by decide, by decide⟩
      · exact ⟨by decide, by decide⟩
      · exact ⟨by decide, by decide⟩
      · exact ⟨(hvmem x hx4).2.1, (hvmem x hx4).2.2.1⟩
  have hstrip : strip_comments (key ++ " = " ++ v) = key ++ " = " ++ v := by
    unfold strip_comments
    rw [hdata, stripLoop_id _ hchars]
    rw [show key.data ++ (' ' :: '=' :: ' ' :: v.data)
        = (key.data ++ [' ', '=', ' ']) ++ v.data from by
      rw [List.append_assoc]
      rfl]
    rw [rtrimL_append_token _ v.data hvne fun x hx => (hvmem x hx).1]
    rw [show (key.data ++ [' ', '=', ' ']) ++ v.data
        = key.data ++ (' ' :: '=' :: ' ' :: v.data) from by
      rw [List.append_assoc]
      rfl]
    rw [← hdata]
  have hinc := matchIncludeLine_none_head (key ++ " = " ++ v) kc
    (kcs ++ (' ' :: '=' :: ' ' :: v.data)) hline hkc.1
    (by rw [hkd] at hki; simpa using hki)
  have hsec := matchSectionLine_none_head (key ++ " = " ++ v) kc
    (kcs ++ (' ' :: '=' :: ' ' :: v.data)) hline hkc.1
    (by rw [hkd] at hkb; simpa using hkb)
  have hkv := matchKVLine_token key v hkne hk hv
  simp only [parseIniLinesH]
  rw [hstrip]
  rw [show (key ++ " = " ++ v).data.isEmpty = false from by
    rw [hline]
    rfl]
  simp only [Bool.false_eq_true, if_false]
  rw [hinc, hsec, hkv]

/-- C3: when a main file includes a second file that overrides one key and
introduces a new one, after `load_from_file` the overridden key holds the
included file's value, the untouched key keeps the main file's value, and
the new key is present. Values range over arbitrary grammar-safe tokens. -/
theorem C3_include_merge_override (f : Nat) (va vb vc vd : String)
    (ha : safeToken va = true) (hb : safeToken vb = true)
    (hc : safeToken vc = true) (hd : safeToken vd = true) :
    ∃ cfg : Config,
      load_from_file
        ⟨[("/app.conf",
           ["[s]", "k1" ++ " = " ++ va, "k2" ++ " = " ++ vb, "include = /sub.conf"]),
          ("/sub.conf", ["[s]", "k1" ++ " = " ++ vc, "k3" ++ " = " ++ vd])]⟩
        (f + 1) Config.new "/app.conf" = .ok cfg ∧
      cfg.get "s" "k1" = some (parse_value vc) ∧
      cfg.get "s" "k2" = some (parse_value vb) ∧
      cfg.get "s" "k3" = some (parse_value vd) := by
  refine ⟨((((Config.mk [] .ini).set "s" "k1" (parse_value va)).set "s" "k2"
      (parse_value vb)).set "s" "k1" (parse_value vc)).set "s" "k3" (parse_value vd),
    ?_, ?_, ?_, ?_⟩
  · calc
      load_from_file
          ⟨[("/app.conf",
             ["[s]", "k1" ++ " = " ++ va, "k2" ++ " = " ++ vb, "include = /sub.conf"]),
            ("/sub.conf", ["[s]", "k1" ++ " = " ++ vc, "k3" ++ " = " ++ vd])]⟩
          (f + 1) Config.new "/app.conf"
        = (parseIniLinesH
            (process_include
              ⟨[("/app.conf",
                 ["[s]", "k1" ++ " = " ++ va, "k2" ++ " = " ++ vb, "include = /sub.conf"]),
                ("/sub.conf", ["[s]", "k1" ++ " = " ++ vc, "k3" ++ " = " ++ vd])]⟩ (f + 1))
            (Config.mk [] .ini) "s"
            ["k1" ++ " = " ++ va, "k2" ++ " = " ++ vb, "include = /sub.conf"]
            "/app.conf").map Prod.fst := rfl
      _ = (parseIniLinesH
            (process_include
              ⟨[("/app.conf",
                 ["[s]", "k1" ++ " = " ++ va, "k2" ++ " = " ++ vb, "include = /sub.conf"]),
                ("/sub.conf", ["[s]", "k1" ++ " = " ++ vc, "k3" ++ " = " ++ vd])]⟩ (f + 1))
            ((Config.mk [] .ini).set "s" "k1" (parse_value va)) "s"
            ["k2" ++ " = " ++ vb, "include = /sub.conf"]
            "/app.conf").map Prod.fst := by
          rw [parseIniLines_cons_kv _ _ _ _ _ _ _ (by decide) (by decide) (by decide)
            (by decide) ha]
      _ = (parseIniLinesH
            (process_include
              ⟨[("/app.conf",
                 ["[s]", "k1" ++ " = " ++ va, "k2" ++ " = " ++ vb, "include = /sub.conf"]),
                ("/sub.conf", ["[s]", "k1" ++ " = " ++ vc, "k3" ++ " = " ++ vd])]⟩ (f + 1))
            (((Config.mk [] .ini).set "s" "k1" (parse_value va)).set "s" "k2"
              (parse_value vb)) "s"
            ["include = /sub.conf"] "/app.conf").map Prod.fst := by
          rw [parseIniLines_cons_kv _ _ _ _ _ _ _ (by decide) (by decide) (by decide)
            (by decide) hb]
      _ = ((match
              (parseIniLinesH
                (process_include
                  ⟨[("/app.conf",
                     ["[s]", "k1" ++ " = " ++ va, "k2" ++ " = " ++ vb,
                      "include = /sub.conf"]),
                    ("/sub.conf", ["[s]", "k1" ++ " = " ++ vc, "k3" ++ " = " ++ vd])]⟩ f)
                (((Config.mk [] .ini).set "s" "k1" (parse_value va)).set "s" "k2"
                  (parse_value vb)) "s"
                ["k1" ++ " = " ++ vc, "k3" ++ " = " ++ vd] "/sub.conf").map Prod.fst with
            | .error e => .error e
            | .ok config' =>
              parseIniLinesH
                (process_include
                  ⟨[("/app.conf",
                     ["[s]", "k1" ++ " = " ++ va, "k2" ++ " = " ++ vb,
                      "include = /sub.conf"]),
                    ("/sub.conf", ["[s]", "k1" ++ " = " ++ vc, "k3" ++ " = " ++ vd])]⟩ (f + 1))
                config' "s" ([] : List String) "/app.conf") :
            Except ConfigError (Config × String)).map Prod.fst := rfl
      _ = ((match
              (parseIniLinesH
                (process_include
                  ⟨[("/app.conf",
                     ["[s]", "k1" ++ " = " ++ va, "k2" ++ " = " ++ vb,
                      "include = /sub.conf"]),
                    ("/sub.conf", ["[s]", "k1" ++ " = " ++ vc, "k3" ++ " = " ++ vd])]⟩ f)
                (((((Config.mk [] .ini).set "s" "k1" (parse_value va)).set "s" "k2"
                  (parse_value vb)).set "s" "k1" (parse_value vc)).set "s" "k3"
                  (parse_value vd)) "s"
                ([] : List String) "/sub.conf").map Prod.fst with
            | .error e => .error e
            | .ok config' =>
              parseIniLinesH
                (process_include
                  ⟨[("/app.conf",
                     ["[s]", "k1" ++ " = " ++ va, "k2" ++ " = " ++ vb,
                      "include = /sub.conf"]),
                    ("/sub.conf", ["[s]", "k1" ++ " = " ++ vc, "k3" ++ " = " ++ vd])]⟩ (f + 1))
                config' "s" ([] : List String) "/app.conf") :
            Except ConfigError (Config × String)).map Prod.fst := by
          rw [parseIniLines_cons_kv _ _ _ _ _ _ _ (by decide) (by decide) (by decide)
            (by decide) hc]
          rw [parseIniLines_cons_kv _ _ _ _ _ _ _ (by decide) (by decide) (by decide)
            (by decide) hd]
      _ = .ok (((((Config.mk [] .ini).set "s" "k1" (parse_value va)).set "s" "k2"
            (parse_value vb)).set "s" "k1" (parse_value vc)).set "s" "k3"
            (parse_value vd)) := rfl
  · simp [config_get_set]
  · simp [config_get_set]
  · simp [config_get_set]

/-- Witness for C3 at concrete values. -/
theorem C3_witness :
    ∃ cfg : Config,
      load_from_file
        ⟨[("/app.conf",
           ["[s]", "k1" ++ " = " ++ "alpha", "k2" ++ " = " ++ "beta",
            "include = /sub.conf"]),
          ("/sub.conf", ["[s]", "k1" ++ " = " ++ "gamma", "k3" ++ " = " ++ "delta"])]⟩
        1 Config.new "/app.conf" = .ok cfg ∧
      cfg.get "s" "k1" = some (parse_value "gamma") ∧
      cfg.get "s" "k2" = some (parse_value "beta") ∧
      cfg.get "s" "k3" = some (parse_value "delta") :=
  C3_include_merge_override 0 "alpha" "beta" "gamma" "delta"
    (by decide) (by decide) (by decide) (by decide)


/-! Part: Claim C4 — the save/load round trip -/

/-- Rust `Config::set_format` (`src/lib.rs`): explicitly set the format tag. -/
def Config.set_format (c : Config) (fmt : ConfigFormat) : Config :=
  { c with format := fmt }

/-- C4 counterexample: a store holding `Integer(1)` is written by the INI
serializer as the bare token `1`, which the INI value classifier reads back
as `Boolean(true)`: the reloaded value differs from the one set, refuting
the round-trip claim already for the line format. -/
theorem C4_counterexample :
    save_to_file ((Config.new.set_format .ini).set "s" "k" (.int 1))
      = .ok ["#!config/ini", "", "[s]", "k = 1"] ∧
    load_from_file ⟨[("/out.conf", ["#!config/ini", "", "[s]", "k = 1"])]⟩ 1
      Config.new "/out.conf"
      = .ok { values := [("s", [("k", ConfigValue.bool true)])], format := .ini } ∧
    ((Config.new.set_format .ini).set "s" "k" (.int 1)).get "s" "k"
      = some (.int 1) ∧
    ConfigValue.bool true ≠ ConfigValue.int 1 :=
  ⟨rfl, rfl, rfl, fun h => ConfigValue.noConfusion h⟩


theorem digit_char_facts : ∀ d < 10, (Char.ofNat (48 + d)).isDigit = true ∧
    (Char.ofNat (48 + d)).isWhitespace = false ∧
    (Char.ofNat (48 + d)).toLower = Char.ofNat (48 + d) ∧
    Char.ofNat (48 + d) ≠ '#' ∧ Char.ofNat (48 + d) ≠ '"' ∧
    Char.ofNat (48 + d) ≠ '+' ∧ Char.ofNat (48 + d) ≠ '-' ∧
    digitVal (Char.ofNat (48 + d)) = d := by decide

theorem natDigitsRevF_mem (fuel : Nat) : ∀ n c, c ∈ natDigitsRevF fuel n →
    ∃ d, d < 10 ∧ c = Char.ofNat (48 + d) := by
  induction fuel with
  | zero => intro n c hc; exact absurd hc (List.not_mem_nil c)
  | succ f ih =>
    intro n c hc
    simp only [natDigitsRevF] at hc
    by_cases hn : n = 0
    · rw [if_pos hn] at hc
      exact absurd hc (List.not_mem_nil c)
    · rw [if_neg hn] at hc
      rcases List.mem_cons.mp hc with rfl | hc2
      · exact ⟨n % 10, Nat.mod_lt n (by norm_num), rfl⟩
      · exact ih (n / 10) c hc2

theorem natDigitsRevF_foldl (fuel : Nat) : ∀ n, n ≤ fuel → ∀ acc : Nat,
    (natDigitsRevF fuel n).reverse.foldl (fun a c => a * 10 + digitVal c) acc
      = acc * 10 ^ (natDigitsRevF fuel n).length + n := by
  induction fuel with
  | zero =>
    intro n hn acc
    have h0 : n = 0 := Nat.le_zero.mp hn
    subst h0
    simp [natDigitsRevF]
  | succ f ih =>
    intro n hn acc
    by_cases hn0 : n = 0
    · subst hn0
      simp [natDigitsRevF]
    · have hrec : natDigitsRevF (f + 1) n
          = Char.ofNat (48 + n % 10) :: natDigitsRevF f (n / 10) := by
        simp [natDigitsRevF, hn0]
      have hle : n / 10 ≤ f := by omega
      rw [hrec, List.reverse_cons, List.foldl_append, ih (n / 10) hle acc]
      simp only [List.foldl_cons, List.foldl_nil, List.length_cons]
      rw [(digit_char_facts (n % 10) (by omega)).2.2.2.2.2.2.2, pow_succ]
      rw [add_mul, mul_assoc]
      generalize acc * (10 ^ (natDigitsRevF f (n / 10)).length * 10) = A
      omega

theorem mem_of_head {α : Type} (l : List α) (c : α) (h : l.head? = some c) :
    c ∈ l := by
  cases l with
  | nil => exact absurd h (by simp)
  | cons a t =>
    injection h with h1
    exact h1 ▸ List.mem_cons_self a t

theorem mem_of_getLast {α : Type} (l : List α) (c : α) (h : l.getLast? = some c) :
    c ∈ l := by
  have h2 : l.reverse.head? = some c := by
    rw [List.head?_reverse]
    exact h
  exact List.mem_reverse.mp (mem_of_head l.reverse c h2)

theorem natRepr_chars (n : Nat) : ∀ c ∈ (natRepr n).data,
    ∃ d, d < 10 ∧ c = Char.ofNat (48 + d) := by
  intro c hc
  unfold natRepr at hc
  by_cases hn : n = 0
  · rw [if_pos hn] at hc
    have hc0 : c = '0' := by simpa using hc
    exact ⟨0, by norm_num, by rw [hc0]⟩
  · rw [if_neg hn] at hc
    exact natDigitsRevF_mem n n c (List.mem_reverse.mp hc)

theorem natRepr_ne (n : Nat) : (natRepr n).data ≠ [] := by
  unfold natRepr
  by_cases hn : n = 0
  · rw [if_pos hn]
    exact fun h => by cases h
  · rcases Nat.exists_eq_succ_of_ne_zero hn with ⟨m, rfl⟩
    rw [if_neg hn]
    show (natDigitsRevF (m + 1) (m + 1)).reverse ≠ []
    simp [natDigitsRevF]

theorem parseNatDigits_natRepr (n : Nat) : parseNatDigits (natRepr n).data = some n := by
  by_cases hn : n = 0
  · subst hn
    rfl
  · have hne := natRepr_ne n
    have hdig : (natRepr n).data.all Char.isDigit = true := by
      rw [List.all_eq_true]
      intro c hc
      rcases natRepr_chars n c hc with ⟨d, hd, rfl⟩
      exact (digit_char_facts d hd).1
    unfold parseNatDigits
    rw [if_pos ⟨hne, hdig⟩]
    congr 1
    unfold natRepr
    rw [if_neg hn]
    show (natDigitsRevF n n).reverse.foldl (fun a c => a * 10 + digitVal c) 0 = n
    rw [natDigitsRevF_foldl n n le_rfl 0]
    simp


theorem i64Repr_head (i : Int) :
    ∃ c, (i64Repr i).data.head? = some c ∧
      (c = '-' ∨ ∃ d, d < 10 ∧ c = Char.ofNat (48 + d)) := by
  unfold i64Repr
  by_cases hi : i < 0
  · rw [if_pos hi]
    exact ⟨'-', by rw [String.data_append]; rfl, Or.inl rfl⟩
  · rw [if_neg hi]
    rcases hd : (natRepr i.natAbs).data with _ | ⟨c, rest⟩
    · exact absurd hd (natRepr_ne i.natAbs)
    · refine ⟨c, rfl, Or.inr ?_⟩
      exact natRepr_chars i.natAbs c (by rw [hd]; exact List.mem_cons_self c rest)

theorem i64Repr_chars (i : Int) : ∀ c ∈ (i64Repr i).data,
    c = '-' ∨ ∃ d, d < 10 ∧ c = Char.ofNat (48 + d) := by
  intro c hc
  unfold i64Repr at hc
  by_cases hi : i < 0
  · rw [if_pos hi, String.data_append] at hc
    rcases List.mem_append.mp hc with h1 | h2
    · left
      simpa using h1
    · exact Or.inr (natRepr_chars i.natAbs c h2)
  · rw [if_neg hi] at hc
    exact Or.inr (natRepr_chars i.natAbs c hc)

theorem i64Repr_nonempty (i : Int) : (i64Repr i).data ≠ [] := by
  unfold i64Repr
  by_cases hi : i < 0
  · rw [if_pos hi, String.data_append]
    simp
  · rw [if_neg hi]
    exact natRepr_ne i.natAbs

theorem toLowercase_i64Repr (i : Int) : toLowercase (i64Repr i) = i64Repr i := by
  unfold toLowercase
  have h2 : (i64Repr i).data.map Char.toLower = (i64Repr i).data := by
    have h3 : ∀ c ∈ (i64Repr i).data, c.toLower = id c := by
      intro c hc
      rcases i64Repr_chars i c hc with rfl | ⟨d, hd, rfl⟩
      · decide
      · exact (digit_char_facts d hd).2.2.1
    rw [List.map_congr_left h3, List.map_id]
  rw [h2]

theorem parseI64_i64Repr (i : Int) (h1 : i64Min ≤ i) (h2 : i ≤ i64Max) :
    parseI64 (i64Repr i) = some i := by
  unfold parseI64
  by_cases hi : i < 0
  · have hd : (i64Repr i).data = '-' :: (natRepr i.natAbs).data := by
      unfold i64Repr
      rw [if_pos hi, String.data_append]
      rfl
    split
    · next rest heq =>
      rw [hd] at heq
      injection heq with hh _
      exact absurd hh (by decide)
    · next rest heq =>
      rw [hd] at heq
      injection heq with _ hh
      rw [← hh, parseNatDigits_natRepr]
      show (if i64Min ≤ -((i.natAbs : Nat) : Int) then some (-((i.natAbs : Nat) : Int))
            else none) = some i
      have habs : ((i.natAbs : Nat) : Int) = -i :=
        Int.ofNat_natAbs_of_nonpos (le_of_lt hi)
      rw [habs, neg_neg, if_pos h1]
    · next h3 h4 =>
      exact absurd (hd.trans rfl) (h4 (natRepr i.natAbs).data)
  · have hd : (i64Repr i).data = (natRepr i.natAbs).data := by
      unfold i64Repr
      rw [if_neg hi]
    split
    · next rest heq =>
      rw [hd] at heq
      have hm : '+' ∈ (natRepr i.natAbs).data := by
        rw [heq]
        exact List.mem_cons_self _ _
      rcases natRepr_chars i.natAbs '+' hm with ⟨d, hdlt, hEq⟩
      exact absurd hEq.symm (digit_char_facts d hdlt).2.2.2.2.2.1
    · next rest heq =>
      rw [hd] at heq
      have hm : '-' ∈ (natRepr i.natAbs).data := by
        rw [heq]
        exact List.mem_cons_self _ _
      rcases natRepr_chars i.natAbs '-' hm with ⟨d, hdlt, hEq⟩
      exact absurd hEq.symm (digit_char_facts d hdlt).2.2.2.2.2.2.1
    · next h3 h4 =>
      rw [hd, parseNatDigits_natRepr]
      show (if ((i.natAbs : Nat) : Int) ≤ i64Max then some ((i.natAbs : Nat) : Int)
            else none) = some i
      have habs : ((i.natAbs : Nat) : Int) = i := Int.natAbs_of_nonneg (not_lt.mp hi)
      rw [habs, if_pos h2]


theorem i64Repr_ne_word (i : Int) (w : String) (c0 : Char)
    (hw : w.data.head? = some c0) (hc1 : c0.isDigit = false) (hc2 : c0 ≠ '-') :
    i64Repr i ≠ w := by
  intro heq
  rcases i64Repr_head i with ⟨c, hh, hc⟩
  rw [heq, hw] at hh
  injection hh with hh1
  rcases hc with rfl | ⟨d, hd, rfl⟩
  · exact hc2 hh1
  · rw [hh1, (digit_char_facts d hd).1] at hc1
    cases hc1

theorem i64Repr_eq_one (i : Int) (h1 : i64Min ≤ i) (h2 : i ≤ i64Max)
    (heq : i64Repr i = "1") : i = 1 := by
  have h3 := parseI64_i64Repr i h1 h2
  rw [heq] at h3
  have h4 : parseI64 "1" = some 1 := by decide
  rw [h4] at h3
  exact (Option.some.inj h3).symm

theorem i64Repr_eq_zero (i : Int) (h1 : i64Min ≤ i) (h2 : i ≤ i64Max)
    (heq : i64Repr i = "0") : i = 0 := by
  have h3 := parseI64_i64Repr i h1 h2
  rw [heq] at h3
  have h4 : parseI64 "0" = some 0 := by decide
  rw [h4] at h3
  exact (Option.some.inj h3).symm

theorem parse_value_int (i : Int) (h1 : i64Min ≤ i) (h2 : i ≤ i64Max)
    (h0 : i ≠ 0) (hone : i ≠ 1) : parse_value (i64Repr i) = .int i := by
  have hq : is_quoted (i64Repr i) = false := by
    unfold is_quoted
    rcases hd : (i64Repr i).data with _ | ⟨c, rest⟩
    · rfl
    · have hm : c ∈ (i64Repr i).data := by
        rw [hd]
        exact List.mem_cons_self c rest
      have hcq : c ≠ '"' := by
        rcases i64Repr_chars i c hm with rfl | ⟨d, hdlt, rfl⟩
        · decide
        · exact (digit_char_facts d hdlt).2.2.2.2.1
      simp [hcq]
  have hlow := toLowercase_i64Repr i
  have hT : i64Repr i ≠ "true" := i64Repr_ne_word i "true" 't' rfl (by decide) (by decide)
  have hY : i64Repr i ≠ "yes" := i64Repr_ne_word i "yes" 'y' rfl (by decide) (by decide)
  have hO : i64Repr i ≠ "on" := i64Repr_ne_word i "on" 'o' rfl (by decide) (by decide)
  have hF : i64Repr i ≠ "false" :=
    i64Repr_ne_word i "false" 'f' rfl (by decide) (by decide)
  have hN : i64Repr i ≠ "no" := i64Repr_ne_word i "no" 'n' rfl (by decide) (by decide)
  have hOf : i64Repr i ≠ "off" := i64Repr_ne_word i "off" 'o' rfl (by decide) (by decide)
  have h1w : i64Repr i ≠ "1" := fun hh => hone (i64Repr_eq_one i h1 h2 hh)
  have h0w : i64Repr i ≠ "0" := fun hh => h0 (i64Repr_eq_zero i h1 h2 hh)
  simp only [parse_value, hq, Bool.false_eq_true, if_false, hlow]
  rw [if_neg (show ¬(i64Repr i = "true" ∨ i64Repr i = "yes" ∨ i64Repr i = "on" ∨
      i64Repr i = "1") from by
    rintro (h | h | h | h)
    · exact hT h
    · exact hY h
    · exact hO h
    · exact h1w h)]
  rw [if_neg (show ¬(i64Repr i = "false" ∨ i64Repr i = "no" ∨ i64Repr i = "off" ∨
      i64Repr i = "0") from by
    rintro (h | h | h | h)
    · exact hF h
    · exact hN h
    · exact hOf h
    · exact h0w h)]
  rw [parseI64_i64Repr i h1 h2]


theorem unquoteLoop_id (cs : List Char) (h : ∀ x ∈ cs, x ≠ '\\') :
    unquoteLoop cs = cs := by
  induction cs with
  | nil => rfl
  | cons c rest ih =>
    have hc : c ≠ '\\' := h c (List.mem_cons_self c rest)
    have ih2 := ih fun x hx => h x (List.mem_cons_of_mem c hx)
    cases rest with
    | nil => simp [unquoteLoop, hc]
    | cons c2 rest2 => simp [unquoteLoop, hc, ih2]

theorem quoted_data (s : String) :
    ("\"" ++ s ++ "\"").data = '"' :: (s.data ++ ['"']) := by
  rw [String.data_append, String.data_append]
  rfl

theorem is_quoted_wrap (s : String) : is_quoted ("\"" ++ s ++ "\"") = true := by
  unfold is_quoted
  rw [quoted_data s]
  have hl : ('"' :: (s.data ++ ['"'])).getLast? = some '"' := by
    rw [show '"' :: (s.data ++ ['"']) = ('"' :: s.data) ++ ['"'] from rfl]
    exact List.getLast?_concat _
  simp [hl]

theorem unquote_wrap (s : String) (h : ∀ x ∈ s.data, x ≠ '\\') :
    unquote ("\"" ++ s ++ "\"") = s := by
  rw [unquote, if_pos (is_quoted_wrap s), quoted_data s]
  show String.mk (unquoteLoop ((s.data ++ ['"']).dropLast)) = s
  rw [List.dropLast_concat, unquoteLoop_id s.data h]

theorem parse_value_str (s : String) (h : ∀ x ∈ s.data, x ≠ '\\') :
    parse_value ("\"" ++ s ++ "\"") = .str s := by
  rw [parse_value, if_pos (is_quoted_wrap s), unquote_wrap s h]


/-- A key usable on a written INI line: a safe token whose first character
also avoids the include and section sigils. -/
def safeKey (k : String) : Bool :=
  match k.data with
  | [] => false
  | c :: _ => safeToken k && c != 'i' && c != '['

/-- Values whose INI serialization parses back to the same value: strings
over characters that keep the written line inside the plain grammar,
integers in the 64-bit range other than 0 and 1 (whose renderings are
boolean words), and booleans. -/
def safeRoundValue : ConfigValue → Bool
  | .str s => s.data.all fun c => c != '"' && c != '\\' && c != '#'
  | .int i => decide (i64Min ≤ i) && decide (i ≤ i64Max) && i != 0 && i != 1
  | .bool _ => true
  | .float _ => false
  | .arr _ => false
  | .table _ => false

theorem safeKey_facts (k : String) (h : safeKey k = true) :
    k.data ≠ [] ∧
    (∀ x ∈ k.data, x.isWhitespace = false ∧ x ≠ '#' ∧ x ≠ '"' ∧ x ≠ '=') ∧
    k.data.head? ≠ some 'i' ∧ k.data.head? ≠ some '[' := by
  unfold safeKey at h
  split at h
  · cases h
  · next c cs heq =>
    have h1 := (Bool.and_eq_true_iff.mp h).1
    have h2 := (Bool.and_eq_true_iff.mp h).2
    have h3 := (Bool.and_eq_true_iff.mp h1).1
    have h4 := (Bool.and_eq_true_iff.mp h1).2
    refine ⟨safeToken_ne k h3, safeToken_mem k h3, ?_, ?_⟩
    · rw [heq]
      intro hcon
      injection hcon with hc
      exact bne_iff_ne.mp h4 hc
    · rw [heq]
      intro hcon
      injection hcon with hc
      exact bne_iff_ne.mp h2 hc

theorem safeRoundValue_str (s : String) (h : safeRoundValue (.str s) = true) :
    ∀ x ∈ s.data, x ≠ '"' ∧ x ≠ '\\' ∧ x ≠ '#' := by
  intro x hx
  have h2 := List.all_eq_true.mp h x hx
  simp only [Bool.and_eq_true, bne_iff_ne, ne_eq] at h2
  exact ⟨h2.1.1, h2.1.2, h2.2⟩

theorem safeRoundValue_int (i : Int) (h : safeRoundValue (.int i) = true) :
    i64Min ≤ i ∧ i ≤ i64Max ∧ i ≠ 0 ∧ i ≠ 1 := by
  have h2 : (decide (i64Min ≤ i) && decide (i ≤ i64Max) && (i != 0) && (i != 1))
      = true := h
  simp only [Bool.and_eq_true, decide_eq_true_eq, bne_iff_ne, ne_eq] at h2
  exact ⟨h2.1.1.1, h2.1.1.2, h2.1.2, h2.2⟩

theorem parse_value_format_value (v : ConfigValue) (h : safeRoundValue v = true) :
    parse_value (format_value v) = v := by
  cases v with
  | str s =>
    show parse_value ("\"" ++ s ++ "\"") = ConfigValue.str s
    exact parse_value_str s fun x hx => ((safeRoundValue_str s h) x hx).2.1
  | int i =>
    rcases safeRoundValue_int i h with ⟨h1, h2, h3, h4⟩
    show parse_value (i64Repr i) = ConfigValue.int i
    exact parse_value_int i h1 h2 h3 h4
  | bool b => cases b <;> rfl
  | float f => exact Bool.noConfusion h
  | arr a => exact Bool.noConfusion h
  | table t => exact Bool.noConfusion h

theorem format_value_tame (v : ConfigValue) (h : safeRoundValue v = true) :
    (format_value v).data ≠ [] ∧
    (∀ c, (format_value v).data.head? = some c → c.isWhitespace = false) ∧
    (∀ c, (format_value v).data.getLast? = some c → c.isWhitespace = false) ∧
    (∀ x ∈ (format_value v).data, x ≠ '#') := by
  cases v with
  | str s =>
    have hs := safeRoundValue_str s h
    have hdata : (format_value (.str s)).data = '"' :: (s.data ++ ['"']) :=
      quoted_data s
    rw [hdata]
    refine ⟨by simp, ?_, ?_, ?_⟩
    · intro c hc
      injection hc with hc1
      subst hc1
      decide
    · intro c hc
      rw [show '"' :: (s.data ++ ['"']) = ('"' :: s.data) ++ ['"'] from rfl,
        List.getLast?_concat] at hc
      injection hc with hc1
      subst hc1
      decide
    · intro x hx
      rcases List.mem_cons.mp hx with rfl | hx2
      · decide
      · rcases List.mem_append.mp hx2 with hx3 | hx4
        · exact (hs x hx3).2.2
        · have hx5 : x = '"' := by simpa using hx4
          subst hx5
          decide
  | int i =>
    have hall : ∀ x ∈ (i64Repr i).data, x.isWhitespace = false ∧ x ≠ '#' := by
      intro x hx
      rcases i64Repr_chars i x hx with rfl | ⟨d, hd, rfl⟩
      · exact ⟨by decide, by decide⟩
      · exact ⟨(digit_char_facts d hd).2.1, (digit_char_facts d hd).2.2.2.1⟩
    refine ⟨i64Repr_nonempty i, ?_, ?_, fun x hx => (hall x hx).2⟩
    · intro c hc
      exact (hall c (mem_of_head _ c hc)).1
    · intro c hc
      exact (hall c (mem_of_getLast _ c hc)).1
  | bool b =>
    cases b
    · refine ⟨by decide, ?_, ?_, by decide⟩
      · intro c hc
        injection hc with hc1
        subst hc1
        decide
      · intro c hc
        injection hc with hc1
        subst hc1
        decide
    · refine ⟨by decide, ?_, ?_, by decide⟩
      · intro c hc
        injection hc with hc1
        subst hc1
        decide
      · intro c hc
        injection hc with hc1
        subst hc1
        decide
  | float f => exact Bool.noConfusion h
  | arr a => exact Bool.noConfusion h
  | table t => exact Bool.noConfusion h


theorem stripLoop_noHash (cs : List Char) (h : ∀ x ∈ cs, x ≠ '#') :
    ∀ q : Bool, stripLoop cs q = cs := by
  induction cs with
  | nil => intro q; rfl
  | cons c rest ih =>
    intro q
    have hc := h c (List.mem_cons_self c rest)
    have ih2 := ih fun x hx => h x (List.mem_cons_of_mem c hx)
    by_cases hq : c = '"'
    · rw [stripLoop, if_pos hq, ih2 (!q)]
    · rw [stripLoop, if_neg hq, if_neg (fun hcon => hc hcon.1), ih2 q]

theorem rtrimL_append_last (l vd : List Char) (d : Char) (ds : List Char)
    (hrev : vd.reverse = d :: ds) (hd : d.isWhitespace = false) :
    rtrimL (l ++ vd) = l ++ vd := by
  unfold rtrimL
  rw [List.reverse_append, hrev, List.cons_append, List.dropWhile_cons, hd]
  simp only [Bool.false_eq_true, if_false]
  rw [← List.cons_append, show d :: ds = vd.reverse from hrev.symm]
  simp

theorem matchKVLine_token2 (key v : String)
    (hkne : key.data ≠ [])
    (hk : ∀ x ∈ key.data, x.isWhitespace = false ∧ x ≠ '#' ∧ x ≠ '"' ∧ x ≠ '=')
    (hvne : v.data ≠ [])
    (hvh : ∀ c, v.data.head? = some c → c.isWhitespace = false)
    (hvl : ∀ c, v.data.getLast? = some c → c.isWhitespace = false) :
    matchKVLine (key ++ " = " ++ v) = some (key, v) := by
  have hdata : (key ++ " = " ++ v).data = key.data ++ (' ' :: '=' :: ' ' :: v.data) := by
    show (key.data ++ (' ' :: '=' :: ' ' :: List.nil)) ++ v.data = _
    rw [List.append_assoc]
    rfl
  have hkeq : ∀ x ∈ key.data, (x != '=') = true := fun x hx => by
    simp only [bne_iff_ne, ne_eq]
    exact (hk x hx).2.2.2
  have hkws : ∀ x ∈ key.data, x.isWhitespace = false := fun x hx => (hk x hx).1
  rcases hkd : key.data with _ | ⟨kc, kcs⟩
  · exact absurd hkd hkne
  unfold matchKVLine
  rw [hdata]
  rw [if_pos (List.elem_eq_true_of_mem
      (List.mem_append_right key.data (by simp)))]
  rw [takeWhile_append_of_all key.data _ hkeq,
    dropWhile_append_of_all key.data _ hkeq]
  rw [show List.takeWhile (fun x => x != '=') (' ' :: '=' :: ' ' :: v.data)
        = [' '] from by
      rw [List.takeWhile_cons, show ((' ' : Char) != '=') = true from rfl,
        List.takeWhile_cons, show (('=' : Char) != '=') = false from rfl]
      simp]
  rw [show List.dropWhile (fun x => x != '=') (' ' :: '=' :: ' ' :: v.data)
        = '=' :: ' ' :: v.data from by
      rw [List.dropWhile_cons, show ((' ' : Char) != '=') = true from rfl,
        List.dropWhile_cons, show (('=' : Char) != '=') = false from rfl]
      simp]
  have hkeypart : trimL (key.data ++ [' ']) = key.data := by
    unfold trimL ltrimL
    rw [hkd, List.cons_append, List.dropWhile_cons,
      (hk kc (by rw [hkd]; exact List.mem_cons_self kc kcs)).1]
    simp only [Bool.false_eq_true, if_false]
    rw [← List.cons_append, ← hkd]
    unfold rtrimL
    rw [List.reverse_append, show ([' '] : List Char).reverse = [' '] from rfl,
      List.singleton_append, List.dropWhile_cons,
      show (' ' : Char).isWhitespace = true from rfl]
    simp only [if_true]
    rw [dropWhile_of_all_false key.data.reverse fun x hx =>
      hkws x (List.mem_reverse.mp hx)]
    simp
  have hvalpart : trimL (' ' :: v.data) = v.data := by
    unfold trimL ltrimL
    rw [List.dropWhile_cons, show (' ' : Char).isWhitespace = true from rfl]
    simp only [if_true]
    rcases hvd : v.data with _ | ⟨vc, vcs⟩
    · exact absurd hvd hvne
    rw [List.dropWhile_cons, hvh vc (by rw [hvd]; rfl)]
    simp only [Bool.false_eq_true, if_false]
    rw [← hvd]
    rcases hrev : v.data.reverse with _ | ⟨d, ds⟩
    · exact absurd (by simpa using congrArg List.reverse hrev) hvne
    have hdws : d.isWhitespace = false := by
      apply hvl
      rw [← List.head?_reverse, hrev]
      rfl
    have h2 := rtrimL_append_last [] v.data d ds hrev hdws
    simpa using h2
  simp only [List.drop_succ_cons, List.drop_zero]
  rw [hkeypart, hvalpart]

theorem strip_comments_section (sec : String) (hsec : safeToken sec = true) :
    strip_comments ("[" ++ sec ++ "]") = "[" ++ sec ++ "]" := by
  have hdata : ("[" ++ sec ++ "]").data = '[' :: (sec.data ++ [']']) := by
    rw [String.data_append, String.data_append]
    rfl
  have hchars : ∀ x ∈ '[' :: (sec.data ++ [']']), x ≠ '#' := by
    intro x hx
    rcases List.mem_cons.mp hx with rfl | hx2
    · decide
    · rcases List.mem_append.mp hx2 with hx3 | hx4
      · exact (safeToken_mem sec hsec x hx3).2.1
      · have hx5 : x = ']' := by simpa using hx4
        subst hx5
        decide
  unfold strip_comments
  rw [hdata, stripLoop_noHash _ hchars false,
    show '[' :: (sec.data ++ [']']) = ('[' :: sec.data) ++ [']'] from rfl,
    rtrimL_append_last ('[' :: sec.data) [']'] ']' [] rfl (by decide),
    show ('[' :: sec.data) ++ [']'] = '[' :: (sec.data ++ [']']) from rfl,
    ← hdata]

theorem matchSectionLine_wrap (sec : String) (_hsec : safeToken sec = true) :
    matchSectionLine ("[" ++ sec ++ "]") = some sec := by
  have hdata : ("[" ++ sec ++ "]").data = '[' :: (sec.data ++ [']']) := by
    rw [String.data_append, String.data_append]
    rfl
  have htrim : trimL ('[' :: (sec.data ++ [']'])) = '[' :: (sec.data ++ [']']) := by
    unfold trimL ltrimL
    rw [List.dropWhile_cons, show ('[' : Char).isWhitespace = false from rfl]
    simp only [Bool.false_eq_true, if_false]
    rw [show '[' :: (sec.data ++ [']']) = ('[' :: sec.data) ++ [']'] from rfl]
    exact rtrimL_append_last ('[' :: sec.data) [']'] ']' [] rfl (by decide)
  unfold matchSectionLine
  rw [hdata, htrim]
  show (if (sec.data ++ [']']).getLast? = some ']'
        then some (String.mk (sec.data ++ [']']).dropLast) else none) = some sec
  rw [if_pos (List.getLast?_concat _), List.dropLast_concat]

theorem parseIniLines_blank (H : IncludeHandler) (cfg : Config) (sec : String)
    (rest : List String) (path : String) :
    parseIniLinesH H cfg sec ("" :: rest) path
      = parseIniLinesH H cfg sec rest path := rfl

theorem parseIniLines_cons_section (H : IncludeHandler) (cfg : Config)
    (sec0 sec : String) (rest : List String) (path : String)
    (hsec : safeToken sec = true) :
    parseIniLinesH H cfg sec0 (("[" ++ sec ++ "]") :: rest) path
      = parseIniLinesH H cfg sec rest path := by
  have hdata : ("[" ++ sec ++ "]").data = '[' :: (sec.data ++ [']']) := by
    rw [String.data_append, String.data_append]
    rfl
  have hstrip := strip_comments_section sec hsec
  have hinc : matchIncludeLine ("[" ++ sec ++ "]") = none :=
    matchIncludeLine_none_head _ '[' (sec.data ++ [']']) hdata (by decide) (by decide)
  have hsecm := matchSectionLine_wrap sec hsec
  simp only [parseIniLinesH]
  rw [hstrip]
  rw [show ("[" ++ sec ++ "]").data.isEmpty = false from by
    rw [hdata]
    rfl]
  simp only [Bool.false_eq_true, if_false]
  rw [hinc, hsecm]

theorem parseIniLines_cons_kv2 (H : IncludeHandler) (cfg : Config) (sec : String)
    (key v : String) (rest : List String) (path : String)
    (hkne : key.data ≠ [])
    (hk : ∀ x ∈ key.data, x.isWhitespace = false ∧ x ≠ '#' ∧ x ≠ '"' ∧ x ≠ '=')
    (hki : key.data.head? ≠ some 'i') (hkb : key.data.head? ≠ some '[')
    (hvne : v.data ≠ [])
    (hvh : ∀ c, v.data.head? = some c → c.isWhitespace = false)
    (hvl : ∀ c, v.data.getLast? = some c → c.isWhitespace = false)
    (hvhash : ∀ x ∈ v.data, x ≠ '#') :
    parseIniLinesH H cfg sec ((key ++ " = " ++ v) :: rest) path
      = parseIniLinesH H (cfg.set sec key (parse_value v)) sec rest path := by
  have hdata : (key ++ " = " ++ v).data = key.data ++ (' ' :: '=' :: ' ' :: v.data) := by
    show (key.data ++ (' ' :: '=' :: ' ' :: List.nil)) ++ v.data = _
    rw [List.append_assoc]
    rfl
  rcases hkd : key.data with _ | ⟨kc, kcs⟩
  · exact absurd hkd hkne
  have hkc := hk kc (by rw [hkd]; exact List.mem_cons_self kc kcs)
  have hline : (key ++ " = " ++ v).data = kc :: (kcs ++ (' ' :: '=' :: ' ' :: v.data)) := by
    rw [hdata, hkd]
    rfl
  have hchars : ∀ x ∈ key.data ++ (' ' :: '=' :: ' ' :: v.data), x ≠ '#' := by
    intro x hx
    rcases List.mem_append.mp hx with hx1 | hx2
    · exact (hk x hx1).2.1
    · simp only [List.mem_cons] at hx2
      rcases hx2 with rfl | rfl | rfl | hx4
      · decide
      · decide
      · decide
      · exact hvhash x hx4
  rcases hrev : v.data.reverse with _ | ⟨d, ds⟩
  · exact absurd (by simpa using congrArg List.reverse hrev) hvne
  have hdws : d.isWhitespace = false := by
    apply hvl
    rw [← List.head?_reverse, hrev]
    rfl
  have hstrip : strip_comments (key ++ " = " ++ v) = key ++ " = " ++ v := by
    unfold strip_comments
    rw [hdata, stripLoop_noHash _ hchars false]
    rw [show key.data ++ (' ' :: '=' :: ' ' :: v.data)
        = (key.data ++ [' ', '=', ' ']) ++ v.data from by
      rw [List.append_assoc]
      rfl]
    rw [rtrimL_append_last _ v.data d ds hrev hdws]
    rw [show (key.data ++ [' ', '=', ' ']) ++ v.data
        = key.data ++ (' ' :: '=' :: ' ' :: v.data) from by
      rw [List.append_assoc]
      rfl]
    rw [← hdata]
  have hinc := matchIncludeLine_none_head (key ++ " = " ++ v) kc
    (kcs ++ (' ' :: '=' :: ' ' :: v.data)) hline hkc.1
    (by rw [hkd] at hki; simpa using hki)
  have hsec := matchSectionLine_none_head (key ++ " = " ++ v) kc
    (kcs ++ (' ' :: '=' :: ' ' :: v.data)) hline hkc.1
    (by rw [hkd] at hkb; simpa using hkb)
  have hkv := matchKVLine_token2 key v hkne hk hvne hvh hvl
  simp only [parseIniLinesH]
  rw [hstrip]
  rw [show (key ++ " = " ++ v).data.isEmpty = false from by
    rw [hline]
    rfl]
  simp only [Bool.false_eq_true, if_false]
  rw [hinc, hsec, hkv]


theorem alist_insert_append {α : Type} (L : List (String × α)) (k : String) (v : α)
    (h : AListC.get L k = none) : AListC.insert L k v = L ++ [(k, v)] := by
  induction L with
  | nil => rfl
  | cons p rest ih =>
    rcases p with ⟨k', v'⟩
    have h' : (if k' = k then some v' else AListC.get rest k) = none := h
    by_cases hk : k' = k
    · rw [if_pos hk] at h'
      cases h'
    · rw [if_neg hk] at h'
      show (if k' = k then (k', v) :: rest else (k', v') :: AListC.insert rest k v)
          = ((k', v') :: rest) ++ [(k, v)]
      rw [if_neg hk, ih h']
      rfl

theorem alist_get_append {α : Type} (L M : List (String × α)) (k : String)
    (h : AListC.get L k = none) : AListC.get (L ++ M) k = AListC.get M k := by
  induction L with
  | nil => rfl
  | cons p rest ih =>
    rcases p with ⟨k', v'⟩
    have h' : (if k' = k then some v' else AListC.get rest k) = none := h
    by_cases hk : k' = k
    · rw [if_pos hk] at h'
      cases h'
    · rw [if_neg hk] at h'
      show (if k' = k then some v' else AListC.get (rest ++ M) k) = AListC.get M k
      rw [if_neg hk]
      exact ih h'

theorem foldl_set_section (fmt : ConfigFormat) (sec : String)
    (kvs : List (String × ConfigValue)) :
    ∀ L : List (String × ConfigValue),
      (∀ kv ∈ kvs, AListC.get L kv.1 = none) →
      (kvs.map Prod.fst).Nodup →
      kvs.foldl (fun c kv => Config.set c sec kv.1 kv.2) (Config.mk [(sec, L)] fmt)
        = Config.mk [(sec, L ++ kvs)] fmt := by
  induction kvs with
  | nil =>
    intro L _ _
    simp
  | cons kv rest ih =>
    intro L hnone hnd
    rcases kv with ⟨k, v⟩
    rw [List.foldl_cons]
    have hget : AListC.get [(sec, L)] sec = some L := by
      show (if sec = sec then some L else AListC.get [] sec) = some L
      rw [if_pos rfl]
    have hins1 : AListC.insert L k v = L ++ [(k, v)] :=
      alist_insert_append L k v (hnone (k, v) (List.mem_cons_self _ _))
    have hins2 : AListC.insert [(sec, L)] sec (L ++ [(k, v)])
        = [(sec, L ++ [(k, v)])] := by
      show (if sec = sec then (sec, L ++ [(k, v)]) :: [] else _) = _
      rw [if_pos rfl]
    have hstep : Config.set (Config.mk [(sec, L)] fmt) sec k v
        = Config.mk [(sec, L ++ [(k, v)])] fmt := by
      simp only [Config.set, hget, hins1, hins2]
    rw [hstep]
    simp only [List.map_cons, List.nodup_cons] at hnd
    have hres := ih (L ++ [(k, v)]) ?_ hnd.2
    · rw [hres, List.append_assoc]
      rfl
    · intro kv2 h2
      have hne : kv2.1 ≠ k := by
        intro hc
        apply hnd.1
        rw [← hc]
        exact List.mem_map.mpr ⟨kv2, h2, rfl⟩
      rw [alist_get_append L [(k, v)] kv2.1
        (hnone kv2 (List.mem_cons_of_mem _ h2))]
      show (if k = kv2.1 then some v else none) = none
      rw [if_neg (fun hc => hne hc.symm)]

theorem foldl_set_build (fmt : ConfigFormat) (sec : String) (k0 : String)
    (v0 : ConfigValue) (rest : List (String × ConfigValue))
    (hnd : (((k0, v0) :: rest).map Prod.fst).Nodup) :
    ((k0, v0) :: rest).foldl (fun c kv => Config.set c sec kv.1 kv.2) (Config.mk [] fmt)
      = Config.mk [(sec, (k0, v0) :: rest)] fmt := by
  rw [List.foldl_cons]
  have hstep : Config.set (Config.mk [] fmt) sec k0 v0
      = Config.mk [(sec, [(k0, v0)])] fmt := rfl
  rw [hstep]
  simp only [List.map_cons, List.nodup_cons] at hnd
  have hres := foldl_set_section fmt sec rest [(k0, v0)] ?_ hnd.2
  · rw [hres]
    rfl
  · intro kv h2
    show (if k0 = kv.1 then some v0 else AListC.get [] kv.1) = none
    rw [if_neg (fun hc => hnd.1 (by rw [hc]; exact List.mem_map.mpr ⟨kv, h2, rfl⟩))]
    rfl

theorem parseIniLines_kv_block (H : IncludeHandler) (sec : String) (path : String)
    (rest : List String) (kvs : List (String × ConfigValue)) :
    ∀ cfg : Config,
      (∀ kv ∈ kvs, safeKey kv.1 = true) →
      (∀ kv ∈ kvs, safeRoundValue kv.2 = true) →
      parseIniLinesH H cfg sec
          ((kvs.map fun kv => kv.1 ++ " = " ++ format_value kv.2) ++ rest) path
        = parseIniLinesH H (kvs.foldl (fun c kv => c.set sec kv.1 kv.2) cfg)
            sec rest path := by
  induction kvs with
  | nil =>
    intro cfg _ _
    simp
  | cons kv tl ih =>
    intro cfg hkeys hvals
    rcases kv with ⟨k, v⟩
    rcases safeKey_facts k (hkeys (k, v) (List.mem_cons_self _ _)) with
      ⟨hkne, hk, hki, hkb⟩
    have hv := hvals (k, v) (List.mem_cons_self _ _)
    rcases format_value_tame v hv with ⟨hvne, hvh, hvl, hvhash⟩
    rw [List.map_cons, List.cons_append]
    rw [parseIniLines_cons_kv2 H cfg sec k (format_value v) _ path
      hkne hk hki hkb hvne hvh hvl hvhash]
    rw [parse_value_format_value v hv]
    rw [ih (cfg.set sec k v) (fun kv2 h2 => hkeys kv2 (List.mem_cons_of_mem _ h2))
      (fun kv2 h2 => hvals kv2 (List.mem_cons_of_mem _ h2))]
    rw [List.foldl_cons]


theorem write_ini_section (sec : String) (kv0 : String × ConfigValue)
    (rest : List (String × ConfigValue)) :
    write_ini (Config.mk [(sec, kv0 :: rest)] .ini)
      = "#!config/ini" :: "" :: ("[" ++ sec ++ "]") ::
        ((kv0 :: rest).map fun kv => kv.1 ++ " = " ++ format_value kv.2) := by
  unfold write_ini
  simp only [List.map_cons, List.map_nil, List.flatten_cons, List.flatten_nil,
    List.append_nil]
  rw [if_neg (fun hcon => by simpa using hcon.2)]

theorem load_ini_shape (body : List String) :
    load_from_file ⟨[("/out.conf", "#!config/ini" :: body)]⟩ 1 Config.new "/out.conf"
      = (parseIniLinesH
          (process_include ⟨[("/out.conf", "#!config/ini" :: body)]⟩ 1)
          (Config.mk [] .ini) "default" body "/out.conf").map Prod.fst := rfl

/-- C4 (amended): for the line format, the save/load round trip holds on
single-section stores built purely via `set_format`/`set` calls whose
section name is a grammar-safe token, whose keys are safe distinct tokens
not starting with the include or section sigils, and whose values are
grammar-safe Texts, 64-bit Integers other than 0 and 1, or Booleans:
saving the store and reloading the written file restores the store exactly.
The claim's universal version fails (`C4_counterexample`): `Integer(1)`
reloads as `Boolean(true)` already in the line format, and floats and the
three structured formats are outside the round-tripping fragment. -/
theorem C4_ini_round_trip (sec : String) (kvs : List (String × ConfigValue))
    (hsec : safeToken sec = true)
    (hkeys : ∀ kv ∈ kvs, safeKey kv.1 = true)
    (hvals : ∀ kv ∈ kvs, safeRoundValue kv.2 = true)
    (hnd : (kvs.map Prod.fst).Nodup) :
    ∃ lines : List String,
      save_to_file (kvs.foldl (fun c kv => c.set sec kv.1 kv.2)
          (Config.new.set_format .ini)) = .ok lines ∧
      load_from_file ⟨[("/out.conf", lines)]⟩ 1 Config.new "/out.conf"
        = .ok (kvs.foldl (fun c kv => c.set sec kv.1 kv.2)
            (Config.new.set_format .ini)) := by
  rcases kvs with _ | ⟨kv0, rest⟩
  · exact ⟨["#!config/ini"], rfl, rfl⟩
  · rcases kv0 with ⟨k0, v0⟩
    have hfold : ((k0, v0) :: rest).foldl (fun c kv => c.set sec kv.1 kv.2)
        (Config.new.set_format .ini) = Config.mk [(sec, (k0, v0) :: rest)] .ini := by
      rw [show Config.new.set_format .ini = Config.mk [] .ini from rfl]
      exact foldl_set_build .ini sec k0 v0 rest hnd
    rw [hfold]
    refine ⟨_, rfl, ?_⟩
    rw [write_ini_section sec (k0, v0) rest]
    rw [load_ini_shape]
    rw [parseIniLines_blank, parseIniLines_cons_section _ _ _ _ _ _ hsec]
    rw [show ((k0, v0) :: rest).map (fun kv => kv.1 ++ " = " ++ format_value kv.2)
        = ((k0, v0) :: rest).map (fun kv => kv.1 ++ " = " ++ format_value kv.2) ++ []
      from (List.append_nil _).symm]
    rw [parseIniLines_kv_block _ sec "/out.conf" [] ((k0, v0) :: rest)
      (Config.mk [] .ini) hkeys hvals]
    rw [foldl_set_build .ini sec k0 v0 rest hnd]
    rfl

/-- Witness for C4 at a concrete safe store: string, integer and boolean
values under one section, saved to the line format and reloaded unchanged. -/
theorem C4_witness :
    ∃ lines : List String,
      save_to_file ([("host", ConfigValue.str "localhost"),
          ("port", ConfigValue.int 8080),
          ("debug", ConfigValue.bool true)].foldl
          (fun c kv => c.set "srv" kv.1 kv.2) (Config.new.set_format .ini))
        = .ok lines ∧
      load_from_file ⟨[("/out.conf", lines)]⟩ 1 Config.new "/out.conf"
        = .ok ([("host", ConfigValue.str "localhost"),
            ("port", ConfigValue.int 8080),
            ("debug", ConfigValue.bool true)].foldl
            (fun c kv => c.set "srv" kv.1 kv.2) (Config.new.set_format .ini)) :=
  C4_ini_round_trip "srv"
    [("host", .str "localhost"), ("port", .int 8080), ("debug", .bool true)]
    (by decide) (by decide) (by decide) (by decide)

end Confucius
